import Mathlib

/-!
# VortexQ broker: a shallow embedding of `broker/broker.go`

The broker keeps two `sync.Map`s, `Subscriptions` (topic name ↦ `[]Subscription`)
and `Topics` (topic name ↦ `[]Message[T]`).  A `sync.Map` is modelled as a finite
map with unique keys (`AList`); `Load` is `lookup`, `Store` is `insert`, and `Range`
visits the entries in the order in which the association list holds them.  Go leaves
the order of `Range` unspecified: every order is the entry order of some state, and
the statements below quantify over all states.

Goroutines started by `Swirl` are modelled by the list of delivery units in the order
in which they are spawned; `wg.Wait()` joins all of them before `Swirl` returns.
Logging has no effect on the broker state and is not modelled.
-/

namespace VortexQ

/-- Go `Message[T]`: `ID`, `Pattern` (the topic) and the payload `Data`. -/
structure Message (T : Type) where
  ID : String
  Pattern : String
  Data : T
  deriving DecidableEq, Repr

/-- Go `Subscription`. -/
structure Subscription where
  ID : String
  SubscriberAddress : String
  TopicName : String
  deriving DecidableEq, Repr

/-- Go `WebhookRequest[T]`; `Timestamp` is an abstract instant. -/
structure WebhookRequest (T : Type) where
  EventType : String
  EventData : Message T
  Timestamp : Nat
  deriving DecidableEq, Repr

/-- A `sync.Map` with string keys and values of type `V`. -/
abbrev SyncMap (V : Type) := AList (fun _ : String => V)

/-- Go `sync.Map.Load`: the value and `ok`, as an `Option`. -/
def SyncMap.Load {V : Type} (m : SyncMap V) (key : String) : Option V :=
  AList.lookup key m

/-- Go `sync.Map.Store`. -/
def SyncMap.Store {V : Type} (m : SyncMap V) (key : String) (value : V) : SyncMap V :=
  AList.insert key value m

/-- The entries `sync.Map.Range` passes to its callback, in visiting order. -/
def SyncMap.RangeEntries {V : Type} (m : SyncMap V) : List (String × V) :=
  m.entries.map (fun e => (e.1, e.2))

/-- Go `VortexQ[T]` without its logger. -/
structure Broker (T : Type) where
  Subscriptions : SyncMap (List Subscription)
  Topics : SyncMap (List (Message T))

/-- Go `NewVortexQ`: both maps empty. -/
def NewVortexQ (T : Type) : Broker T :=
  { Subscriptions := ∅, Topics := ∅ }

/-- Go `VortexQ.Publish`. -/
def Publish {T : Type} (vq : Broker T) (msg : Message T) : Broker T :=
  match vq.Topics.Load msg.Pattern with
  | some topicRaw =>
    let msgs := topicRaw ++ [msg]
    { vq with Topics := vq.Topics.Store msg.Pattern msgs }
  | none =>
    let newTopic := [msg]
    { vq with Topics := vq.Topics.Store msg.Pattern newTopic }

/-- Go `VortexQ.Subscribe`: the new broker state and the returned error (`none` is `nil`). -/
def Subscribe {T : Type} (vq : Broker T) (subscription : Subscription) :
    Broker T × Option String :=
  match vq.Subscriptions.Load subscription.TopicName with
  | none =>
    let subs := ([] : List Subscription) ++ [subscription]
    ({ vq with Subscriptions := vq.Subscriptions.Store subscription.TopicName subs }, none)
  | some topicName =>
    let subs := topicName ++ [subscription]
    ({ vq with Subscriptions := vq.Subscriptions.Store subscription.TopicName subs }, none)

/-- An `*http.Request` as far as `sendWebhook` fills it in. -/
structure HttpRequest where
  Method : String
  URL : String
  Header : List (String × String)
  Body : String
  deriving DecidableEq, Repr

/-- An `*http.Response` as far as `sendWebhook` reads it. -/
structure HttpResponse where
  StatusCode : Int
  Status : String
  deriving DecidableEq, Repr

/-- Go `http.StatusOK`. -/
def StatusOK : Int := 200

/-- What one call of `sendWebhook` meets outside the broker: the clock, `json.Marshal`
on the payload type, URL parsing inside `http.NewRequest`, and `client.Do` (with its
5 second timeout) on the subscriber's side.  An `Except.error` is a non-nil Go error. -/
structure World (T : Type) where
  now : Nat
  marshal : WebhookRequest T → Except String String
  parseURL : String → Except String String
  clientDo : HttpRequest → Except String HttpResponse

/-- Go `http.NewRequest(method, url, body)`: fails when the URL does not parse, otherwise
a request with that method, URL and body and no headers.  (The method check of
`net/http` accepts the literal "POST" that `sendWebhook` passes.) -/
def NewRequest {T : Type} (w : World T) (method url : String) (body : String) :
    Except String HttpRequest :=
  match w.parseURL url with
  | .error err => .error err
  | .ok u => .ok { Method := method, URL := u, Header := [], Body := body }

/-- Go `req.Header.Set(key, value)`. -/
def HttpRequest.HeaderSet (req : HttpRequest) (key value : String) : HttpRequest :=
  { req with Header := (key, value) :: req.Header.filter (fun kv => kv.1 ≠ key) }

/-- The `WebhookRequest` literal at the top of `sendWebhook`. -/
def wreq {T : Type} (now : Nat) (msg : Message T) : WebhookRequest T :=
  { EventType := msg.Pattern, EventData := msg, Timestamp := now }

/-- One run of `sendWebhook`: the returned error (`none` is `nil`) and the request
handed to `client.Do`, when the run got that far. -/
structure SendOutcome where
  err : Option String
  posted : Option HttpRequest
  deriving DecidableEq, Repr

/-- The body of `VortexQ.sendWebhook`.  The deferred `resp.Body.Close()` only logs. -/
def sendWebhookRun {T : Type} (w : World T) (msg : Message T) (SubscriberAddr : String) :
    SendOutcome :=
  match w.marshal (wreq w.now msg) with
  | .error err => { err := some ("error creating webhook payload: " ++ err), posted := none }
  | .ok jsonBytes =>
    match NewRequest w "POST" SubscriberAddr jsonBytes with
    | .error err =>
      { err := some ("failed to prepare the webhook request: " ++ err), posted := none }
    | .ok req0 =>
      let req := req0.HeaderSet "Content-Type" "application/json"
      match w.clientDo req with
      | .error err =>
        { err := some ("error sending webhook to " ++ SubscriberAddr ++ ": " ++ err),
          posted := some req }
      | .ok resp =>
        if resp.StatusCode ≠ StatusOK then
          { err := some ("webhook delivery failed: status " ++ resp.Status), posted := some req }
        else
          { err := none, posted := some req }

/-- Go `VortexQ.sendWebhook`: the returned error, `none` for `nil`. -/
def sendWebhook {T : Type} (w : World T) (msg : Message T) (SubscriberAddr : String) :
    Option String :=
  (sendWebhookRun w msg SubscriberAddr).err

/-- One goroutine started by `Swirl`: the `Range` key under which it was started, the
captured `msgCopy` and `subCopy`, the address passed to `sendWebhook`, and what
`sendWebhook` returned. -/
structure Delivery (T : Type) where
  topic : String
  msg : Message T
  sub : Subscription
  addr : String
  err : Option String
  deriving DecidableEq, Repr

/-- A delivery unit: a delivery without its outcome. -/
def Delivery.unit {T : Type} (d : Delivery T) : String × Message T × Subscription × String :=
  (d.topic, d.msg, d.sub, d.addr)

/-- State threaded through the `Range` callback of `Swirl`: the `Topics` map and the
goroutines started so far, in spawn order. -/
structure SwirlState (T : Type) where
  Topics : SyncMap (List (Message T))
  spawned : List (Delivery T)

/-- The goroutine body of `Swirl` for one `(msg, sub)`; the `n`-th goroutine meets the
world `worlds n`. -/
def spawn {T : Type} (worlds : Nat → World T) (topicKey : String) (msg : Message T)
    (spawned : List (Delivery T)) (sub : Subscription) : List (Delivery T) :=
  spawned ++ [{ topic := topicKey, msg := msg, sub := sub, addr := sub.SubscriberAddress,
                err := sendWebhook (worlds spawned.length) msg sub.SubscriberAddress }]

/-- The callback `Swirl` passes to `vq.Subscriptions.Range`, for one entry. -/
def swirlCallback {T : Type} (worlds : Nat → World T) (st : SwirlState T)
    (entry : String × List Subscription) : SwirlState T :=
  let topicKey := entry.1
  let subs := entry.2
  match st.Topics.Load topicKey with
  | none => st
  | some messages =>
    let spawned := messages.foldl
      (fun acc msg => subs.foldl (spawn worlds topicKey msg) acc) st.spawned
    { Topics := st.Topics.Store topicKey [], spawned := spawned }

/-- What one `Swirl` leaves behind: the broker, the deliveries it ran (all joined by
`wg.Wait()`), and the returned error. -/
structure SwirlResult (T : Type) where
  vq : Broker T
  deliveries : List (Delivery T)
  err : Option String

/-- Go `VortexQ.Swirl`. -/
def Swirl {T : Type} (worlds : Nat → World T) (vq : Broker T) : SwirlResult T :=
  let st := vq.Subscriptions.RangeEntries.foldl (swirlCallback worlds)
    { Topics := vq.Topics, spawned := [] }
  { vq := { vq with Topics := st.Topics }, deliveries := st.spawned, err := none }

/-- The ticker loop of `app.Run`: `n` consecutive calls of `Swirl`, cycle `i` meeting the
worlds `worlds i`; the broker after the last cycle and the deliveries of all cycles. -/
def SwirlCycles {T : Type} (worlds : Nat → Nat → World T) :
    Nat → Broker T → Broker T × List (Delivery T)
  | 0, vq => (vq, [])
  | n + 1, vq =>
    let before := SwirlCycles worlds n vq
    let r := Swirl (worlds n) before.1
    (r.vq, before.2 ++ r.deliveries)

/-- The delivery units of topic `topicKey` for a queue and a subscriber list: every
message paired with every subscriber, message-major, as the nested loops of `Swirl`
start them. -/
def unitsFor {T : Type} (topicKey : String) (messages : List (Message T))
    (subs : List Subscription) : List (String × Message T × Subscription × String) :=
  (List.product messages subs).map (fun p => (topicKey, p.1, p.2, p.2.SubscriberAddress))

/-- The units started over a list of `Range` entries with distinct keys: for each
entry, its subscribers crossed with the queue its topic had at the start. -/
def unitsOver {T : Type} (Topics : SyncMap (List (Message T)))
    (es : List (String × List Subscription)) :
    List (String × Message T × Subscription × String) :=
  (es.map (fun e => unitsFor e.1 ((Topics.Load e.1).getD []) e.2)).flatten

/-! ## Interleaved execution

`Publish` is a `Load` followed by a `Store`, and so is the `Range` callback of `Swirl`
on one topic.  Each `sync.Map` operation is atomic on its own; goroutines running
`Publish` (one per HTTP request) and the ticker goroutine running `Swirl` interleave
between them. -/

/-- What a goroutine runs: `Publish(msg)`, or the `Swirl` callback for `topicKey`. -/
inductive Op (T : Type) where
  | publish (msg : Message T)
  | drain (topicKey : String)
  deriving DecidableEq, Repr

/-- Where a goroutine stands: before its `Load`, after its `Load` holding what it
returned, or after its `Store` (or its early return). -/
inductive Pc (T : Type) where
  | start
  | loaded (topicRaw : Option (List (Message T)))
  | finished
  deriving DecidableEq, Repr

/-- The shared `Topics` map, the goroutines, and the batches `Swirl` has loaded for
delivery so far. -/
structure Conc (T : Type) where
  Topics : SyncMap (List (Message T))
  threads : List (Op T × Pc T)
  drained : List (List (Message T))

/-- One atomic step of goroutine `i`. -/
def Conc.step {T : Type} (c : Conc T) (i : Nat) : Conc T :=
  match c.threads.get? i with
  | none => c
  | some (Op.publish msg, Pc.start) =>
    { c with threads := c.threads.set i (Op.publish msg, Pc.loaded (c.Topics.Load msg.Pattern)) }
  | some (Op.publish msg, Pc.loaded (some topicRaw)) =>
    { c with Topics := c.Topics.Store msg.Pattern (topicRaw ++ [msg]),
             threads := c.threads.set i (Op.publish msg, Pc.finished) }
  | some (Op.publish msg, Pc.loaded none) =>
    { c with Topics := c.Topics.Store msg.Pattern [msg],
             threads := c.threads.set i (Op.publish msg, Pc.finished) }
  | some (Op.drain topicKey, Pc.start) =>
    match c.Topics.Load topicKey with
    | none => { c with threads := c.threads.set i (Op.drain topicKey, Pc.finished) }
    | some messages =>
      { c with threads := c.threads.set i (Op.drain topicKey, Pc.loaded (some messages)),
               drained := c.drained ++ [messages] }
  | some (Op.drain topicKey, Pc.loaded _) =>
    { c with Topics := c.Topics.Store topicKey [],
             threads := c.threads.set i (Op.drain topicKey, Pc.finished) }
  | some (_, Pc.finished) => c

/-- Run the goroutines under a schedule: the list of goroutine indices, one per step. -/
def Conc.run {T : Type} (c : Conc T) (schedule : List Nat) : Conc T :=
  schedule.foldl Conc.step c

/-- All goroutines have returned. -/
def Conc.allFinished {T : Type} (c : Conc T) : Bool :=
  c.threads.all (fun t => match t.2 with | Pc.finished => true | _ => false)

/-- How often `msg` is accounted for at the end: its occurrences in the drained
batches plus its occurrences in the pending queue of its topic. -/
def Conc.accountedFor {T : Type} [DecidableEq T] (c : Conc T) (msg : Message T) : Nat :=
  (c.drained.map (fun batch => batch.count msg)).sum
    + ((c.Topics.Load msg.Pattern).getD []).count msg

/-! ## Fixtures, after `broker_test.go` -/

/-- A world in which every delivery is answered with status 200. -/
def worldOK : World String :=
  { now := 0, marshal := fun r => .ok r.EventData.ID, parseURL := fun u => .ok u,
    clientDo := fun _ => .ok { StatusCode := 200, Status := "200 OK" } }

/-- A world in which every delivery is answered with status 500. -/
def worldFail : World String :=
  { now := 0, marshal := fun r => .ok r.EventData.ID, parseURL := fun u => .ok u,
    clientDo := fun _ => .ok { StatusCode := 500, Status := "500 Internal Server Error" } }

/-- A world in which the subscriber answers 204 No Content. -/
def worldNoContent : World String :=
  { now := 0, marshal := fun r => .ok r.EventData.ID, parseURL := fun u => .ok u,
    clientDo := fun _ => .ok { StatusCode := 204, Status := "204 No Content" } }

def msg1 : Message String := { ID := "1", Pattern := "topic", Data := "a" }

def msg2 : Message String := { ID := "2", Pattern := "topic", Data := "b" }

def sub1 : Subscription := { ID := "sub", SubscriberAddress := "http://e", TopicName := "topic" }

/-- The broker of `TestSwirlDelivery` just before `Swirl`: one subscriber, two messages. -/
def brokerSubscribed : Broker String :=
  Publish (Publish (Subscribe (NewVortexQ String) sub1).1 msg1) msg2

/-- A broker with one message and no subscription at all. -/
def brokerOrphan : Broker String :=
  Publish (NewVortexQ String) msg1

/-- A broker whose `Subscriptions` map holds the key "topic" with an empty subscriber
list, and one pending message under that key. -/
def brokerEmptyList : Broker String :=
  { Subscriptions := (∅ : SyncMap (List Subscription)).Store "topic" [],
    Topics := (∅ : SyncMap (List (Message String))).Store "topic" [msg1] }

/-- Two `Publish` goroutines for the same topic, none started yet. -/
def racePublishPublish : Conc String :=
  { Topics := ∅, threads := [(Op.publish msg1, Pc.start), (Op.publish msg2, Pc.start)],
    drained := [] }

/-- A `Swirl` callback on "topic" and a `Publish` to it, with `msg1` already pending. -/
def raceDrainPublish : Conc String :=
  { Topics := (∅ : SyncMap (List (Message String))).Store "topic" [msg1],
    threads := [(Op.drain "topic", Pc.start), (Op.publish msg2, Pc.start)],
    drained := [] }

/-! ## Sequential traces of broker calls -/

/-- One call on the broker: `Publish(msg)`, `Subscribe(subscription)`, or a `Swirl`
whose goroutines meet `worlds`. -/
inductive Call (T : Type) where
  | publish (msg : Message T)
  | subscribe (subscription : Subscription)
  | swirl (worlds : Nat → World T)

/-- The broker after one call. -/
def Call.apply {T : Type} (vq : Broker T) : Call T → Broker T
  | Call.publish msg => Publish vq msg
  | Call.subscribe subscription => (Subscribe vq subscription).1
  | Call.swirl worlds => (Swirl worlds vq).vq

/-- The broker after a sequence of calls, one after the other. -/
def applyCalls {T : Type} (calls : List (Call T)) (vq : Broker T) : Broker T :=
  calls.foldl Call.apply vq

/-- One `Swirl` of a trace: the broker it started from and the deliveries it ran. -/
structure Cycle (T : Type) where
  before : Broker T
  deliveries : List (Delivery T)

/-- One call of a trace, with the cycles logged so far. -/
def traceStep {T : Type} (acc : Broker T × List (Cycle T)) (c : Call T) :
    Broker T × List (Cycle T) :=
  match c with
  | Call.swirl worlds =>
    ((Swirl worlds acc.1).vq,
      acc.2 ++ [{ before := acc.1, deliveries := (Swirl worlds acc.1).deliveries }])
  | Call.publish msg => (Publish acc.1 msg, acc.2)
  | Call.subscribe subscription => ((Subscribe acc.1 subscription).1, acc.2)

/-- A sequence of calls from `vq`: the final broker and the log of its `Swirl` cycles. -/
def runTrace {T : Type} (calls : List (Call T)) (vq : Broker T) : Broker T × List (Cycle T) :=
  calls.foldl traceStep (vq, [])

/-- The pending queue of a topic, empty when the topic has no entry. -/
def queue {T : Type} (vq : Broker T) (key : String) : List (Message T) :=
  (vq.Topics.Load key).getD []

/-- The subscriber list of a topic, empty when the topic has no entry. -/
def subscribers {T : Type} (vq : Broker T) (key : String) : List Subscription :=
  (vq.Subscriptions.Load key).getD []

/-- The `messages` that the callback of a `Swirl` started from `vq` loads for `key`:
the pending queue when `Range` visits the key, nothing otherwise. -/
def drainedBatch {T : Type} (vq : Broker T) (key : String) : List (Message T) :=
  match vq.Subscriptions.Load key with
  | none => []
  | some _ => queue vq key

/-- The batches drained for `key` by the cycles of a log, one after the other. -/
def batchesOf {T : Type} (key : String) (log : List (Cycle T)) : List (Message T) :=
  (log.map (fun cyc => drainedBatch cyc.before key)).flatten

/-- The messages a sequence of calls publishes to `key`, in publish order. -/
def publishedTo {T : Type} (key : String) : List (Call T) → List (Message T)
  | [] => []
  | Call.publish msg :: rest =>
    if msg.Pattern = key then msg :: publishedTo key rest else publishedTo key rest
  | _ :: rest => publishedTo key rest

/-- Every message stored under a key of `Topics` has that key as its `Pattern`. -/
def TopicsKeyed {T : Type} (vq : Broker T) : Prop :=
  ∀ key msgs, vq.Topics.Load key = some msgs → ∀ m ∈ msgs, m.Pattern = key

/-- Every subscription stored under a key of `Subscriptions` has that key as its
`TopicName`. -/
def SubscriptionsKeyed {T : Type} (vq : Broker T) : Prop :=
  ∀ key subs, vq.Subscriptions.Load key = some subs → ∀ s ∈ subs, s.TopicName = key

/-- Every key of `Subscriptions` holds at least one subscription. -/
def SubscriptionsNonEmpty {T : Type} (vq : Broker T) : Prop :=
  ∀ key subs, vq.Subscriptions.Load key = some subs → subs ≠ []

/-! ## `internal/config` and `internal/version` -/

/-- The package variables of `internal/version`; the linker may overwrite them. -/
structure Version where
  Project : String
  BuildTime : String
  Commit : String
  Release : String
  deriving DecidableEq, Repr

/-- The initial values of the variables in `version.go`. -/
def versionVars : Version :=
  { Project := "vortexq", BuildTime := "unset", Commit := "unset", Release := "unset" }

def envServerServiceHost : String := "SERVER_SERVICE_HOST"

def envServerServicePort : String := "SERVER_SERVICE_PORT"

def envServerServiceLogLevel : String := "SERVER_SERVICE_LOG_LEVEL"

def envServerServiceProject : String := "SERVER_SERVICE_PROJECT"

def envServerServiceRelease : String := "SERVER_SERVICE_RELEASE"

def envServerServiceBuildTime : String := "SERVER_SERVICE_BUILD_TIME"

def envServerServiceCommit : String := "SERVER_SERVICE_COMMIT"

/-- Go `ServerAppConfig`. -/
structure ServerAppConfig where
  Host : String
  Port : String
  LogLevel : String
  Project : String
  Release : String
  BuildTime : String
  Commit : String
  deriving DecidableEq, Repr

/-- The process environment: the value of each variable that is set. -/
abbrev Environ := String → Option String

/-- Go `os.Getenv`: the value of the variable, the empty string when it is not set. -/
def Getenv (env : Environ) (key : String) : String :=
  (env key).getD ""

/-- Go `len` on a string: its length in bytes. -/
def len (s : String) : Nat := s.utf8ByteSize

/-- Go `ServerAppConfig.GetCombinedAddress`: `fmt.Sprintf("%s:%s", cfg.Host, cfg.Port)`. -/
def GetCombinedAddress (cfg : ServerAppConfig) : String :=
  cfg.Host ++ ":" ++ cfg.Port

/-- Go `ServerAppConfig.LoadFromEnv`, assignment by assignment. -/
def LoadFromEnv (env : Environ) (version : Version) (cfg : ServerAppConfig) :
    ServerAppConfig :=
  let cfg := { cfg with Host := Getenv env envServerServiceHost }
  let cfg := if len cfg.Host = 0 then { cfg with Host := "0.0.0.0" } else cfg
  let cfg := { cfg with Port := Getenv env envServerServicePort }
  let cfg := if len cfg.Port = 0 then { cfg with Port := "8085" } else cfg
  let cfg := { cfg with LogLevel := Getenv env envServerServiceLogLevel }
  let cfg := if len cfg.LogLevel = 0 then { cfg with LogLevel := "local" } else cfg
  let cfg := { cfg with Project := Getenv env envServerServiceProject }
  let cfg := if len cfg.Project = 0 then { cfg with Project := version.Project } else cfg
  let cfg := { cfg with Release := Getenv env envServerServiceRelease }
  let cfg := if len cfg.Release = 0 then { cfg with Release := version.Release } else cfg
  let cfg := { cfg with BuildTime := Getenv env envServerServiceBuildTime }
  let cfg := if len cfg.BuildTime = 0 then { cfg with BuildTime := version.BuildTime } else cfg
  let cfg := { cfg with Commit := Getenv env envServerServiceCommit }
  let cfg := if len cfg.Commit = 0 then { cfg with Commit := version.Commit } else cfg
  cfg

/-- The rule in words: the value of the variable when it is set and not empty, the
default otherwise. -/
def fromEnvOrDefault (env : Environ) (key : String) (dflt : String) : String :=
  match env key with
  | none => dflt
  | some value => if value = "" then dflt else value

/-- The configuration the rule in words describes. -/
def configInWords (env : Environ) (version : Version) : ServerAppConfig :=
  { Host := fromEnvOrDefault env "SERVER_SERVICE_HOST" "0.0.0.0",
    Port := fromEnvOrDefault env "SERVER_SERVICE_PORT" "8085",
    LogLevel := fromEnvOrDefault env "SERVER_SERVICE_LOG_LEVEL" "local",
    Project := fromEnvOrDefault env "SERVER_SERVICE_PROJECT" version.Project,
    Release := fromEnvOrDefault env "SERVER_SERVICE_RELEASE" version.Release,
    BuildTime := fromEnvOrDefault env "SERVER_SERVICE_BUILD_TIME" version.BuildTime,
    Commit := fromEnvOrDefault env "SERVER_SERVICE_COMMIT" version.Commit }

/-- An environment with every variable whose value is the empty string unset. -/
def unsetEmpty (env : Environ) : Environ :=
  fun key => if env key = some "" then none else env key

/-- The environment of `TestLoadFromEnvOverrides`, with the port set to the empty
string instead. -/
def envOverrides : Environ := fun key =>
  if key = "SERVER_SERVICE_HOST" then some "1.2.3.4"
  else if key = "SERVER_SERVICE_PORT" then some ""
  else if key = "SERVER_SERVICE_LOG_LEVEL" then some "debug"
  else none

/-! ## `routes.PublishHandler` -/

/-- Go `http.StatusBadRequest`. -/
def StatusBadRequest : Int := 400

/-- What one request to `PublishHandler` leaves behind: the status of the response,
the broker, and the calls of `funcs.Publish` the handler made. -/
structure HandlerResult (T : Type) where
  status : Int
  vq : Broker T
  published : List (Message T)

/-- Go `VortexQHandler.PublishHandler` on a broker: `bind` is `ctx.ShouldBindJSON` on
the request body. -/
def PublishHandler {T : Type} (bind : String → Except String (Message T)) (vq : Broker T)
    (body : String) : HandlerResult T :=
  match bind body with
  | .error _ => { status := StatusBadRequest, vq := vq, published := [] }
  | .ok message => { status := StatusOK, vq := Publish vq message, published := [message] }

/-- A binder that accepts exactly the body "ok", as `msg1`. -/
def bindFixture : String → Except String (Message String) := fun body =>
  if body = "ok" then .ok msg1 else .error "invalid character"

/-- The subscription with every field empty. -/
def subEmpty : Subscription := { ID := "", SubscriberAddress := "", TopicName := "" }

/-- A second subscriber of "topic", with an address that is no URL. -/
def sub2 : Subscription := { ID := "s2", SubscriberAddress := "not a url", TopicName := "topic" }

/-! ## Deliveries as calls of `sendWebhook` -/

/-- Every record of the list stands for the call its goroutine made: the `i`-th one
holds what `sendWebhook(msgCopy, subCopy.SubscriberAddress)` returned in the world of
the `i`-th goroutine, and its address is that of its subscription. -/
def CallsMade {T : Type} (worlds : Nat → World T) (l : List (Delivery T)) : Prop :=
  ∀ i d, l[i]? = some d →
    d.err = sendWebhook (worlds i) d.msg d.addr ∧ d.addr = d.sub.SubscriberAddress

/-! ## `encoding/json` on string payloads -/

/-- A Go `string` as its bytes. -/
abbrev GoString := List Nat

/-- Go `encoding/json` on one byte of a string, for the bytes modelled here: a printable
ASCII byte other than the quote, the backslash, `<`, `>` and `&` is copied, and a byte
from 0xF5 to 0xFF, which starts no UTF-8 sequence, is written as the escape of U+FFFD.
Other bytes are outside the model. -/
def jsonByte (b : Nat) : Except String String :=
  if 0x20 ≤ b ∧ b < 0x7F ∧ b ≠ 0x22 ∧ b ≠ 0x5C ∧ b ≠ 0x3C ∧ b ≠ 0x3E ∧ b ≠ 0x26 then
    .ok (String.singleton (Char.ofNat b))
  else if 0xF5 ≤ b ∧ b ≤ 0xFF then
    .ok "\\ufffd"
  else
    .error "json: byte outside the modelled fragment"

/-- The bytes of a string, encoded one after the other. -/
def jsonBytes : GoString → Except String String
  | [] => .ok ""
  | b :: rest =>
    match jsonByte b, jsonBytes rest with
    | .ok x, .ok y => .ok (x ++ y)
    | .error e, _ => .error e
    | _, .error e => .error e

/-- Go `encoding/json` on a `string` value: the encoded bytes between quotes. -/
def jsonString (s : GoString) : Except String String :=
  match jsonBytes s with
  | .ok x => .ok ("\"" ++ x ++ "\"")
  | .error e => .error e

/-- Go `encoding/json` on a string field held as text: its characters must be ASCII. -/
def jsonText (s : String) : Except String String :=
  if s.data.all (fun c => c.toNat < 0x7F) then jsonString (s.data.map Char.toNat)
  else .error "json: character outside the modelled fragment"

/-- Go `json.Marshal` on a `WebhookRequest[string]`, field by field in declaration
order with the names of the `json` tags; the instant is written as its number, where Go
writes its RFC 3339 text. -/
def jsonMarshal (r : WebhookRequest GoString) : Except String String :=
  match jsonText r.EventType, jsonText r.EventData.ID, jsonText r.EventData.Pattern,
      jsonString r.EventData.Data with
  | .ok eventType, .ok id, .ok pattern, .ok data =>
    .ok ("\x7b\"event_type\":" ++ eventType ++ ",\"event_data\":\x7b\"id\":" ++ id
      ++ ",\"pattern\":" ++ pattern ++ ",\"data\":" ++ data
      ++ "\x7d,\"timestamp\":\"" ++ toString r.Timestamp ++ "\"\x7d")
  | _, _, _, _ => .error "json: outside the modelled fragment"

/-- A world whose serialization is `jsonMarshal` and whose subscriber answers 200. -/
def worldJSON : World GoString :=
  { now := 0, marshal := jsonMarshal, parseURL := fun u => .ok u,
    clientDo := fun _ => .ok { StatusCode := 200, Status := "200 OK" } }

/-- A message whose payload is the Go string "\xff". -/
def msgFF : Message GoString := { ID := "1", Pattern := "topic", Data := [0xFF] }

/-- A message whose payload is the Go string "\xfe". -/
def msgFE : Message GoString := { ID := "1", Pattern := "topic", Data := [0xFE] }

/-- A message whose payload is the Go string "a". -/
def msgA : Message GoString := { ID := "1", Pattern := "topic", Data := [0x61] }

/-! ## Lemmas on the maps -/

theorem Load_Store_self {V : Type} (m : SyncMap V) (key : String) (value : V) :
    (m.Store key value).Load key = some value := by
  simp [SyncMap.Load, SyncMap.Store]

theorem Load_Store_ne {V : Type} (m : SyncMap V) {key key' : String} (value : V)
    (h : key' ≠ key) : (m.Store key value).Load key' = m.Load key' := by
  simp [SyncMap.Load, SyncMap.Store, AList.lookup_insert_ne h]

theorem RangeEntries_keys {V : Type} (m : SyncMap V) :
    m.RangeEntries.map Prod.fst = m.keys := by
  simp [SyncMap.RangeEntries, AList.keys, List.keys, List.map_map, Function.comp_def]

theorem RangeEntries_nodup {V : Type} (m : SyncMap V) :
    (m.RangeEntries.map Prod.fst).Nodup := by
  rw [RangeEntries_keys]; exact m.keys_nodup

theorem mem_RangeEntries {V : Type} (m : SyncMap V) (key : String) (value : V) :
    (key, value) ∈ m.RangeEntries ↔ m.Load key = some value := by
  unfold SyncMap.RangeEntries SyncMap.Load
  rw [← Option.mem_def, AList.mem_lookup_iff]
  constructor
  · intro h
    obtain ⟨e, he, heq⟩ := List.mem_map.1 h
    obtain ⟨k, v⟩ := e
    simp only [Prod.mk.injEq] at heq
    obtain ⟨rfl, rfl⟩ := heq
    exact he
  · intro h
    exact List.mem_map.2 ⟨⟨key, value⟩, h, rfl⟩

theorem Load_eq_none_iff {V : Type} (m : SyncMap V) (key : String) :
    m.Load key = none ↔ key ∉ m.RangeEntries.map Prod.fst := by
  rw [RangeEntries_keys]
  unfold SyncMap.Load
  rw [AList.lookup_eq_none, AList.mem_keys]

/-! ## Publish and Subscribe -/

theorem Publish_Load {T : Type} (vq : Broker T) (msg : Message T) :
    (Publish vq msg).Topics.Load msg.Pattern
      = some ((vq.Topics.Load msg.Pattern).getD [] ++ [msg]) := by
  unfold Publish
  cases h : vq.Topics.Load msg.Pattern <;> simp [Load_Store_self]

theorem Publish_foldl_Load {T : Type} (topic : String) (msgs : List (Message T)) :
    ∀ (vq : Broker T), (∀ m ∈ msgs, m.Pattern = topic) → msgs ≠ [] →
      (msgs.foldl Publish vq).Topics.Load topic
        = some ((vq.Topics.Load topic).getD [] ++ msgs) := by
  induction msgs with
  | nil => intro vq _ h; exact absurd rfl h
  | cons m rest ih =>
    intro vq hp _
    have hm : m.Pattern = topic := hp m (List.mem_cons_self _ _)
    have h1 : (Publish vq m).Topics.Load topic
        = some ((vq.Topics.Load topic).getD [] ++ [m]) := by
      rw [← hm]; exact Publish_Load vq m
    rw [List.foldl_cons]
    by_cases hr : rest = []
    · subst hr; simpa using h1
    · rw [ih (Publish vq m) (fun x hx => hp x (List.mem_cons_of_mem _ hx)) hr, h1]
      simp

/-- C1: after `Publish(msg)` the queue under `msg.Pattern` is the previous queue with
`msg` appended (exactly `[msg]` when the topic had no entry); and after publishing a
non-empty list of messages of one topic in sequence, the queue of that topic is the
previous queue followed by those messages in publish order. -/
theorem Publish_appends {T : Type} (vq : Broker T) (topic : String)
    (msgs : List (Message T)) (hp : ∀ m ∈ msgs, m.Pattern = topic) (hne : msgs ≠ []) :
    (∀ msg : Message T,
      match vq.Topics.Load msg.Pattern with
      | none => (Publish vq msg).Topics.Load msg.Pattern = some [msg]
      | some old => (Publish vq msg).Topics.Load msg.Pattern = some (old ++ [msg])) ∧
    (msgs.foldl Publish vq).Topics.Load topic
      = some ((vq.Topics.Load topic).getD [] ++ msgs) ∧
    (msgs.foldl Publish (NewVortexQ T)).Topics.Load topic = some msgs := by
  refine ⟨?_, Publish_foldl_Load topic msgs vq hp hne, ?_⟩
  · intro msg
    have h := Publish_Load vq msg
    cases h' : vq.Topics.Load msg.Pattern <;> simpa [h'] using h
  · rw [Publish_foldl_Load topic msgs (NewVortexQ T) hp hne]
    simp [NewVortexQ, SyncMap.Load]

theorem Publish_appends_witness :
    (([⟨"1", "topic1", "hello"⟩, ⟨"2", "topic1", "world"⟩] : List (Message String)).foldl
        Publish (NewVortexQ String)).Topics.Load "topic1"
      = some [⟨"1", "topic1", "hello"⟩, ⟨"2", "topic1", "world"⟩] :=
  (Publish_appends (NewVortexQ String) "topic1"
    [⟨"1", "topic1", "hello"⟩, ⟨"2", "topic1", "world"⟩] (by decide) (by decide)).2.2

/-- C2: after `Subscribe(s)` the subscriber list under `s.TopicName` is the previous
list with `s` appended (exactly `[s]` when the topic had no entry); nothing is
deduplicated, so the list is one longer and `s` occurs once more in it, also when
`s` was already subscribed. -/
theorem Subscribe_appends {T : Type} (vq : Broker T) (s : Subscription) :
    (match vq.Subscriptions.Load s.TopicName with
      | none => (Subscribe vq s).1.Subscriptions.Load s.TopicName = some [s]
      | some old => (Subscribe vq s).1.Subscriptions.Load s.TopicName = some (old ++ [s])) ∧
    (((Subscribe vq s).1.Subscriptions.Load s.TopicName).getD []).length
      = ((vq.Subscriptions.Load s.TopicName).getD []).length + 1 ∧
    (((Subscribe vq s).1.Subscriptions.Load s.TopicName).getD []).count s
      = ((vq.Subscriptions.Load s.TopicName).getD []).count s + 1 := by
  unfold Subscribe
  cases h : vq.Subscriptions.Load s.TopicName <;> simp [Load_Store_self]

/-! ## Swirl: the goroutines it starts -/

theorem spawn_foldl_units {T : Type} (worlds : Nat → World T) (topicKey : String)
    (msg : Message T) (subs : List Subscription) :
    ∀ acc : List (Delivery T),
      (subs.foldl (spawn worlds topicKey msg) acc).map Delivery.unit
        = acc.map Delivery.unit
          ++ subs.map (fun sub => (topicKey, msg, sub, sub.SubscriberAddress)) := by
  induction subs with
  | nil => intro acc; simp
  | cons sub rest ih =>
    intro acc
    rw [List.foldl_cons, ih]
    simp [spawn, Delivery.unit]

theorem messages_foldl_units {T : Type} (worlds : Nat → World T) (topicKey : String)
    (subs : List Subscription) (messages : List (Message T)) :
    ∀ acc : List (Delivery T),
      (messages.foldl (fun acc msg => subs.foldl (spawn worlds topicKey msg) acc) acc).map
          Delivery.unit
        = acc.map Delivery.unit ++ unitsFor topicKey messages subs := by
  induction messages with
  | nil => intro acc; simp [unitsFor, List.product]
  | cons msg rest ih =>
    intro acc
    rw [List.foldl_cons, ih, spawn_foldl_units]
    simp [unitsFor, List.product, List.map_map, Function.comp_def]

theorem swirlCallback_units {T : Type} (worlds : Nat → World T) (st : SwirlState T)
    (entry : String × List Subscription) :
    (swirlCallback worlds st entry).spawned.map Delivery.unit
      = st.spawned.map Delivery.unit
        ++ unitsFor entry.1 ((st.Topics.Load entry.1).getD []) entry.2 := by
  cases h : st.Topics.Load entry.1 with
  | none => simp [swirlCallback, h, unitsFor, List.product]
  | some messages => simp [swirlCallback, h, messages_foldl_units]

theorem swirlCallback_Load_ne {T : Type} (worlds : Nat → World T) (st : SwirlState T)
    (entry : String × List Subscription) {key : String} (h : key ≠ entry.1) :
    (swirlCallback worlds st entry).Topics.Load key = st.Topics.Load key := by
  cases h' : st.Topics.Load entry.1 with
  | none => simp [swirlCallback, h']
  | some messages => simp [swirlCallback, h', Load_Store_ne _ _ h]

theorem swirlCallback_Load_self {T : Type} (worlds : Nat → World T) (st : SwirlState T)
    (entry : String × List Subscription) :
    (swirlCallback worlds st entry).Topics.Load entry.1
      = (st.Topics.Load entry.1).map (fun _ => []) := by
  cases h' : st.Topics.Load entry.1 with
  | none => simp [swirlCallback, h']
  | some messages => simp [swirlCallback, h', Load_Store_self]

/-- A key that `Range` does not visit keeps its `Topics` entry. -/
theorem foldl_swirlCallback_Load_not_mem {T : Type} (worlds : Nat → World T) (key : String)
    (es : List (String × List Subscription)) :
    ∀ st : SwirlState T, key ∉ es.map Prod.fst →
      (es.foldl (swirlCallback worlds) st).Topics.Load key = st.Topics.Load key := by
  induction es with
  | nil => intro st _; rfl
  | cons e rest ih =>
    intro st hk
    simp only [List.map_cons, List.mem_cons, not_or] at hk
    rw [List.foldl_cons, ih _ hk.2, swirlCallback_Load_ne worlds st e hk.1]

/-- A key that `Range` visits has its `Topics` entry, when it has one, replaced by the
empty queue. -/
theorem foldl_swirlCallback_Load_mem {T : Type} (worlds : Nat → World T) (key : String)
    (es : List (String × List Subscription)) :
    ∀ st : SwirlState T, key ∈ es.map Prod.fst →
      (es.foldl (swirlCallback worlds) st).Topics.Load key
        = (st.Topics.Load key).map (fun _ => []) := by
  induction es with
  | nil => intro st hk; simp at hk
  | cons e rest ih =>
    intro st hk
    rw [List.foldl_cons]
    by_cases hr : key ∈ rest.map Prod.fst
    · rw [ih _ hr]
      by_cases he : key = e.1
      · subst he
        rw [swirlCallback_Load_self]
        cases st.Topics.Load e.1 <;> rfl
      · rw [swirlCallback_Load_ne worlds st e he]
    · rw [foldl_swirlCallback_Load_not_mem worlds key rest _ hr]
      have he : key = e.1 := by
        simp only [List.map_cons, List.mem_cons] at hk
        rcases hk with h | h
        · exact h
        · exact absurd h hr
      subst he
      exact swirlCallback_Load_self worlds st e

theorem unitsOver_congr {T : Type} (A B : SyncMap (List (Message T)))
    (es : List (String × List Subscription))
    (h : ∀ e ∈ es, A.Load e.1 = B.Load e.1) : unitsOver A es = unitsOver B es := by
  unfold unitsOver
  congr 1
  apply List.map_congr_left
  intro e he
  rw [h e he]

theorem foldl_swirlCallback_units {T : Type} (worlds : Nat → World T)
    (es : List (String × List Subscription)) :
    ∀ st : SwirlState T, (es.map Prod.fst).Nodup →
      (es.foldl (swirlCallback worlds) st).spawned.map Delivery.unit
        = st.spawned.map Delivery.unit ++ unitsOver st.Topics es := by
  induction es with
  | nil => intro st _; simp [unitsOver]
  | cons e rest ih =>
    intro st hnd
    rw [List.map_cons, List.nodup_cons] at hnd
    rw [List.foldl_cons, ih _ hnd.2, swirlCallback_units]
    have hc : unitsOver (swirlCallback worlds st e).Topics rest = unitsOver st.Topics rest := by
      apply unitsOver_congr
      intro e' he'
      apply swirlCallback_Load_ne
      intro heq
      exact hnd.1 (heq ▸ List.mem_map_of_mem Prod.fst he')
    rw [hc]
    simp [unitsOver]

theorem swirlCallback_Topics_congr {T : Type} (worlds worlds' : Nat → World T)
    (st st' : SwirlState T) (entry : String × List Subscription)
    (h : st.Topics = st'.Topics) :
    (swirlCallback worlds st entry).Topics = (swirlCallback worlds' st' entry).Topics := by
  cases hl : st'.Topics.Load entry.1 with
  | none => simp [swirlCallback, h, hl]
  | some messages => simp [swirlCallback, h, hl]

theorem foldl_swirlCallback_Topics_congr {T : Type} (worlds worlds' : Nat → World T)
    (es : List (String × List Subscription)) :
    ∀ st st' : SwirlState T, st.Topics = st'.Topics →
      (es.foldl (swirlCallback worlds) st).Topics
        = (es.foldl (swirlCallback worlds') st').Topics := by
  induction es with
  | nil => intro st st' h; exact h
  | cons e rest ih =>
    intro st st' h
    rw [List.foldl_cons, List.foldl_cons]
    exact ih _ _ (swirlCallback_Topics_congr worlds worlds' st st' e h)

/-- The delivery units of one `Swirl`, without reference to any delivery outcome. -/
theorem Swirl_units {T : Type} (worlds : Nat → World T) (vq : Broker T) :
    (Swirl worlds vq).deliveries.map Delivery.unit
      = unitsOver vq.Topics vq.Subscriptions.RangeEntries := by
  unfold Swirl
  simp only
  rw [foldl_swirlCallback_units worlds _ _ (RangeEntries_nodup _)]
  simp

theorem unitsFor_topic {T : Type} (topicKey : String) (messages : List (Message T))
    (subs : List Subscription) :
    ∀ u ∈ unitsFor topicKey messages subs, u.1 = topicKey := by
  intro u hu
  unfold unitsFor at hu
  obtain ⟨p, _, rfl⟩ := List.mem_map.1 hu
  rfl

theorem unitsOver_filter_not_mem {T : Type} (Topics : SyncMap (List (Message T)))
    (key : String) (es : List (String × List Subscription))
    (hk : key ∉ es.map Prod.fst) :
    (unitsOver Topics es).filter (fun u => u.1 = key) = [] := by
  rw [List.filter_eq_nil_iff]
  intro u hu
  unfold unitsOver at hu
  obtain ⟨l, hl, hul⟩ := List.mem_flatten.1 hu
  obtain ⟨e, he, rfl⟩ := List.mem_map.1 hl
  have h1 := unitsFor_topic _ _ _ u hul
  simp only [decide_eq_true_eq]
  intro h2
  exact hk (h2 ▸ h1 ▸ List.mem_map_of_mem Prod.fst he)

theorem unitsOver_filter_mem {T : Type} (Topics : SyncMap (List (Message T)))
    (key : String) (subs : List Subscription) (es : List (String × List Subscription)) :
    (es.map Prod.fst).Nodup → (key, subs) ∈ es →
      (unitsOver Topics es).filter (fun u => u.1 = key)
        = unitsFor key ((Topics.Load key).getD []) subs := by
  induction es with
  | nil => intro _ h; simp at h
  | cons e rest ih =>
    intro hnd hmem
    rw [List.map_cons, List.nodup_cons] at hnd
    have hcons : unitsOver Topics (e :: rest)
        = unitsFor e.1 ((Topics.Load e.1).getD []) e.2 ++ unitsOver Topics rest := by
      simp [unitsOver]
    rw [hcons, List.filter_append]
    rcases List.mem_cons.1 hmem with h | h
    · subst h
      rw [unitsOver_filter_not_mem Topics _ rest hnd.1, List.append_nil,
        List.filter_eq_self]
      intro u hu
      simpa using unitsFor_topic _ _ _ u hu
    · have hne : e.1 ≠ key := by
        intro heq
        exact hnd.1 (heq ▸ List.mem_map_of_mem Prod.fst h)
      rw [ih hnd.2 h]
      have : (unitsFor e.1 ((Topics.Load e.1).getD []) e.2).filter (fun u => u.1 = key)
          = [] := by
        rw [List.filter_eq_nil_iff]
        intro u hu
        have := unitsFor_topic _ _ _ u hu
        simp only [decide_eq_true_eq]
        intro h2
        exact hne (this ▸ h2)
      rw [this, List.nil_append]

/-- The delivery units `Swirl` starts for one topic. -/
theorem Swirl_units_of_topic {T : Type} (worlds : Nat → World T) (vq : Broker T)
    (topic : String) :
    ((Swirl worlds vq).deliveries.map Delivery.unit).filter (fun u => u.1 = topic)
      = unitsFor topic ((vq.Topics.Load topic).getD [])
          ((vq.Subscriptions.Load topic).getD []) := by
  rw [Swirl_units]
  cases h : vq.Subscriptions.Load topic with
  | none =>
    rw [unitsOver_filter_not_mem _ _ _ ((Load_eq_none_iff _ _).1 h)]
    simp [unitsFor, List.product]
  | some subs =>
    rw [unitsOver_filter_mem _ _ subs _ (RangeEntries_nodup _) ((mem_RangeEntries _ _ _).2 h)]
    rfl

theorem Swirl_Load_subscribed {T : Type} (worlds : Nat → World T) (vq : Broker T)
    (topic : String) (subs : List Subscription) (h : vq.Subscriptions.Load topic = some subs) :
    (Swirl worlds vq).vq.Topics.Load topic = (vq.Topics.Load topic).map (fun _ => []) := by
  have hk : topic ∈ vq.Subscriptions.RangeEntries.map Prod.fst :=
    List.mem_map_of_mem Prod.fst ((mem_RangeEntries _ _ _).2 h)
  exact foldl_swirlCallback_Load_mem worlds topic _ _ hk

theorem Swirl_Load_unsubscribed {T : Type} (worlds : Nat → World T) (vq : Broker T)
    (topic : String) (h : vq.Subscriptions.Load topic = none) :
    (Swirl worlds vq).vq.Topics.Load topic = vq.Topics.Load topic :=
  foldl_swirlCallback_Load_not_mem worlds topic _ _ ((Load_eq_none_iff _ _).1 h)

theorem SwirlCycles_Subscriptions {T : Type} (worlds : Nat → Nat → World T) (vq : Broker T) :
    ∀ n, (SwirlCycles worlds n vq).1.Subscriptions = vq.Subscriptions := by
  intro n
  induction n with
  | zero => rfl
  | succ n ih => simpa [SwirlCycles, Swirl] using ih

theorem unitsOver_addr {T : Type} (Topics : SyncMap (List (Message T)))
    (es : List (String × List Subscription)) :
    ∀ u ∈ unitsOver Topics es, u.2.2.2 = u.2.2.1.SubscriberAddress := by
  intro u hu
  unfold unitsOver at hu
  obtain ⟨l, hl, hul⟩ := List.mem_flatten.1 hu
  obtain ⟨e, _, rfl⟩ := List.mem_map.1 hl
  unfold unitsFor at hul
  obtain ⟨p, _, rfl⟩ := List.mem_map.1 hul
  rfl

/-! ## Swirl: every delivery is a call of `sendWebhook` -/

theorem CallsMade_spawn {T : Type} (worlds : Nat → World T) (topicKey : String)
    (msg : Message T) (l : List (Delivery T)) (sub : Subscription)
    (h : CallsMade worlds l) : CallsMade worlds (spawn worlds topicKey msg l sub) := by
  intro i d hd
  unfold spawn at hd
  by_cases hi : i < l.length
  · rw [List.getElem?_append_left hi] at hd
    exact h i d hd
  · have hle : l.length ≤ i := Nat.le_of_not_lt hi
    rw [List.getElem?_append_right hle] at hd
    have hz : i - l.length = 0 := by
      by_contra hne
      have hpos : 1 ≤ i - l.length := Nat.one_le_iff_ne_zero.2 hne
      rw [List.getElem?_eq_none (by simpa using hpos)] at hd
      exact absurd hd (by simp)
    have hil : i = l.length := by omega
    rw [hz] at hd
    simp only [List.getElem?_cons_zero, Option.some.injEq] at hd
    subst hd
    subst hil
    exact ⟨rfl, rfl⟩

theorem CallsMade_subs {T : Type} (worlds : Nat → World T) (topicKey : String)
    (msg : Message T) (subs : List Subscription) :
    ∀ l : List (Delivery T), CallsMade worlds l →
      CallsMade worlds (subs.foldl (spawn worlds topicKey msg) l) := by
  induction subs with
  | nil => intro l h; exact h
  | cons sub rest ih =>
    intro l h
    rw [List.foldl_cons]
    exact ih _ (CallsMade_spawn worlds topicKey msg l sub h)

theorem CallsMade_messages {T : Type} (worlds : Nat → World T) (topicKey : String)
    (subs : List Subscription) (messages : List (Message T)) :
    ∀ l : List (Delivery T), CallsMade worlds l →
      CallsMade worlds
        (messages.foldl (fun acc msg => subs.foldl (spawn worlds topicKey msg) acc) l) := by
  induction messages with
  | nil => intro l h; exact h
  | cons msg rest ih =>
    intro l h
    rw [List.foldl_cons]
    exact ih _ (CallsMade_subs worlds topicKey msg subs l h)

theorem CallsMade_swirlCallback {T : Type} (worlds : Nat → World T) (st : SwirlState T)
    (entry : String × List Subscription) (h : CallsMade worlds st.spawned) :
    CallsMade worlds (swirlCallback worlds st entry).spawned := by
  cases hl : st.Topics.Load entry.1 with
  | none => simpa [swirlCallback, hl] using h
  | some messages =>
    simpa [swirlCallback, hl] using CallsMade_messages worlds entry.1 entry.2 messages _ h

theorem CallsMade_foldl {T : Type} (worlds : Nat → World T)
    (es : List (String × List Subscription)) :
    ∀ st : SwirlState T, CallsMade worlds st.spawned →
      CallsMade worlds (es.foldl (swirlCallback worlds) st).spawned := by
  induction es with
  | nil => intro st h; exact h
  | cons e rest ih =>
    intro st h
    rw [List.foldl_cons]
    exact ih _ (CallsMade_swirlCallback worlds st e h)

/-- The `i`-th delivery of `Swirl` holds the result of the call
`sendWebhook(msgCopy, subCopy.SubscriberAddress)` of the `i`-th goroutine. -/
theorem Swirl_CallsMade {T : Type} (worlds : Nat → World T) (vq : Broker T) :
    CallsMade worlds (Swirl worlds vq).deliveries := by
  unfold Swirl
  apply CallsMade_foldl
  intro i d hd
  simp at hd

/-! ## The claims on Swirl -/

/-- C3: for a topic with at least one subscription and at least one pending message,
after one `Swirl` the topic still has its entry in `Topics` and the queue is empty,
whatever the deliveries return. -/
theorem Swirl_drains_subscribed {T : Type} (worlds : Nat → World T) (vq : Broker T)
    (topic : String) (subs : List Subscription) (msgs : List (Message T))
    (hs : vq.Subscriptions.Load topic = some subs) (_hsne : subs ≠ [])
    (hm : vq.Topics.Load topic = some msgs) (_hmne : msgs ≠ []) :
    (Swirl worlds vq).vq.Topics.Load topic = some [] := by
  rw [Swirl_Load_subscribed worlds vq topic subs hs, hm]
  rfl

theorem Swirl_drains_subscribed_witness :
    (Swirl (fun _ => worldFail) brokerSubscribed).vq.Topics.Load "topic" = some [] :=
  Swirl_drains_subscribed (fun _ => worldFail) brokerSubscribed "topic" [sub1] [msg1, msg2]
    (by decide) (by decide) (by decide) (by decide)

/-- A key written into the exported `Subscriptions` map with an empty list, which
`Subscribe` never stores, is visited by `Swirl` and its queue is cleared. -/
theorem Swirl_clears_topic_of_empty_list :
    ((brokerEmptyList.Subscriptions.Load "topic").getD []).length = 0 ∧
    brokerEmptyList.Topics.Load "topic" = some [msg1] ∧
    (Swirl (fun _ => worldOK) brokerEmptyList).vq.Topics.Load "topic" = some [] ∧
    (Swirl (fun _ => worldOK) brokerEmptyList).vq.Topics.Load "topic"
      ≠ brokerEmptyList.Topics.Load "topic" := by
  decide

/-- For a topic with an empty or absent subscriber list, any number of consecutive
`Swirl` cycles starts no delivery for that topic; and when the topic has no entry in
the `Subscriptions` map, those cycles leave the topic's `Topics` entry unchanged. -/
theorem Swirl_keeps_unsubscribed {T : Type} (worlds : Nat → Nat → World T) (vq : Broker T)
    (topic : String) (h0 : (vq.Subscriptions.Load topic).getD [] = []) (n : Nat) :
    (∀ d ∈ (SwirlCycles worlds n vq).2, d.topic ≠ topic) ∧
    (vq.Subscriptions.Load topic = none →
      (SwirlCycles worlds n vq).1.Topics.Load topic = vq.Topics.Load topic) := by
  induction n with
  | zero => exact ⟨by simp [SwirlCycles], fun _ => rfl⟩
  | succ n ih =>
    constructor
    · intro d hd
      rcases List.mem_append.1 hd with hd | hd
      · exact ih.1 d hd
      · intro heq
        have hu := Swirl_units_of_topic (worlds n) (SwirlCycles worlds n vq).1 topic
        have hnil : unitsFor topic
            (((SwirlCycles worlds n vq).1.Topics.Load topic).getD []) ([] : List Subscription)
            = [] := by
          simp [unitsFor, List.product]
        rw [SwirlCycles_Subscriptions, h0, hnil, List.filter_eq_nil_iff] at hu
        exact hu d.unit (List.mem_map_of_mem Delivery.unit hd) (by simpa [Delivery.unit] using heq)
    · intro h
      have hsub : (SwirlCycles worlds n vq).1.Subscriptions.Load topic = none := by
        rw [SwirlCycles_Subscriptions]; exact h
      show (Swirl (worlds n) (SwirlCycles worlds n vq).1).vq.Topics.Load topic = _
      rw [Swirl_Load_unsubscribed _ _ _ hsub]
      exact ih.2 h

theorem Swirl_keeps_unsubscribed_witness :
    (brokerOrphan.Subscriptions.Load "topic").getD [] = [] ∧
    brokerOrphan.Subscriptions.Load "topic" = none ∧
    (∀ d ∈ (SwirlCycles (fun _ _ => worldOK) 3 brokerOrphan).2, d.topic ≠ "topic") ∧
    (SwirlCycles (fun _ _ => worldOK) 3 brokerOrphan).1.Topics.Load "topic"
      = brokerOrphan.Topics.Load "topic" :=
  ⟨by decide, by decide,
    (Swirl_keeps_unsubscribed (fun _ _ => worldOK) brokerOrphan "topic" (by decide) 3).1,
    (Swirl_keeps_unsubscribed (fun _ _ => worldOK) brokerOrphan "topic" (by decide) 3).2
      (by decide)⟩

/-- C5: for a topic with `m` pending messages and `n` subscriptions (duplicates
counted), the deliveries `Swirl` starts for it are the cross product of the messages
and the subscriptions, pair by pair, `m * n` in total, each addressed to the
`SubscriberAddress` of its subscription; and each delivery is a call of `sendWebhook`
with its message and that address, whose result it holds. -/
theorem Swirl_fan_out {T : Type} (worlds : Nat → World T) (vq : Broker T) (topic : String) :
    ((Swirl worlds vq).deliveries.map Delivery.unit).filter (fun u => u.1 = topic)
      = (List.product ((vq.Topics.Load topic).getD [])
            ((vq.Subscriptions.Load topic).getD [])).map
          (fun p => (topic, p.1, p.2, p.2.SubscriberAddress)) ∧
    ((Swirl worlds vq).deliveries.filter (fun d => d.topic = topic)).length
      = ((vq.Topics.Load topic).getD []).length
        * ((vq.Subscriptions.Load topic).getD []).length ∧
    (∀ d ∈ (Swirl worlds vq).deliveries, d.addr = d.sub.SubscriberAddress) ∧
    (∀ i d, (Swirl worlds vq).deliveries[i]? = some d →
      d.err = sendWebhook (worlds i) d.msg d.sub.SubscriberAddress ∧
      d.err = sendWebhook (worlds i) d.msg d.addr) := by
  have h := Swirl_units_of_topic worlds vq topic
  refine ⟨h, ?_, ?_, ?_⟩
  rotate_left 2
  · intro i d hd
    obtain ⟨h1, h2⟩ := Swirl_CallsMade worlds vq i d hd
    exact ⟨h2 ▸ h1, h1⟩
  · have hl := congrArg List.length h
    rw [List.filter_map, List.length_map] at hl
    simp only [unitsFor, List.length_map] at hl
    exact hl.trans (List.length_product _ _)
  · intro d hd
    have hu : d.unit ∈ (Swirl worlds vq).deliveries.map Delivery.unit :=
      List.mem_map_of_mem Delivery.unit hd
    rw [Swirl_units] at hu
    exact unitsOver_addr _ _ _ hu

/-- C7: `Swirl` returns `nil` for every broker state and every assignment of outcomes
to its deliveries; in the run of the fixture where both deliveries fail with status 500
the failures are with the deliveries and the result is still `nil`. -/
theorem Swirl_returns_nil {T : Type} (worlds : Nat → World T) (vq : Broker T) :
    (Swirl worlds vq).err = none ∧
    (Swirl (fun _ => worldFail) brokerSubscribed).deliveries.map (fun d => d.err)
      = [some "webhook delivery failed: status 500 Internal Server Error",
         some "webhook delivery failed: status 500 Internal Server Error"] ∧
    (Swirl (fun _ => worldFail) brokerSubscribed).err = none := by
  refine ⟨rfl, ?_, rfl⟩
  decide

/-- C8: the delivery units `Swirl` starts, and the broker it leaves, are the same under
every two assignments of delivery outcomes: a failed delivery removes no other
attempt. -/
theorem Swirl_isolation {T : Type} (worlds worlds' : Nat → World T) (vq : Broker T) :
    (Swirl worlds vq).deliveries.map Delivery.unit
      = (Swirl worlds' vq).deliveries.map Delivery.unit ∧
    (Swirl worlds vq).vq.Topics = (Swirl worlds' vq).vq.Topics ∧
    (Swirl worlds vq).vq.Subscriptions = (Swirl worlds' vq).vq.Subscriptions := by
  refine ⟨by rw [Swirl_units, Swirl_units], ?_, rfl⟩
  exact foldl_swirlCallback_Topics_congr worlds worlds' _ _ _ rfl

/-! ## sendWebhook -/

/-- C6: `sendWebhook` returns `nil` exactly when the envelope serializes, the request
is built, the transport returns a response without error, and the status code of the
response is 200; every other run returns an error. -/
theorem sendWebhook_nil_iff {T : Type} (w : World T) (msg : Message T) (addr : String) :
    sendWebhook w msg addr = none ↔
      ∃ jsonBytes req resp,
        w.marshal (wreq w.now msg) = .ok jsonBytes ∧
        NewRequest w "POST" addr jsonBytes = .ok req ∧
        w.clientDo (req.HeaderSet "Content-Type" "application/json") = .ok resp ∧
        resp.StatusCode = 200 := by
  unfold sendWebhook sendWebhookRun
  cases hm : w.marshal (wreq w.now msg) with
  | error e => simp
  | ok jsonBytes =>
    cases hr : NewRequest w "POST" addr jsonBytes with
    | error e => simp [hr]
    | ok req =>
      cases hd : w.clientDo (req.HeaderSet "Content-Type" "application/json") with
      | error e => simp [hr, hd]
      | ok resp =>
        by_cases hs : resp.StatusCode = StatusOK
        · simp [hr, hd, hs, StatusOK]
        · have hs' : ¬ resp.StatusCode = 200 := hs
          simp [hr, hd, hs, hs']

/-- The statuses 201 and 204 are failures, as is 500. -/
theorem sendWebhook_other_status_fails :
    sendWebhook worldNoContent msg1 "http://e" = some "webhook delivery failed: status 204 No Content" ∧
    sendWebhook worldFail msg1 "http://e"
      = some "webhook delivery failed: status 500 Internal Server Error" ∧
    sendWebhook worldOK msg1 "http://e" = none := by
  decide

/-- What `sendWebhook` posts: a POST to the parsed address, with the JSON content
type, whose body is the serialization of the envelope built from the message. -/
theorem sendWebhookRun_posted {T : Type} (w : World T) (msg : Message T) (addr : String)
    (req : HttpRequest) (hp : (sendWebhookRun w msg addr).posted = some req) :
    w.marshal (wreq w.now msg) = .ok req.Body ∧ w.parseURL addr = .ok req.URL ∧
    req.Method = "POST" ∧ req.Header = [("Content-Type", "application/json")] := by
  unfold sendWebhookRun at hp
  cases hm : w.marshal (wreq w.now msg) with
  | error e => simp [hm] at hp
  | ok jsonBytes =>
    unfold NewRequest at hp
    cases hu : w.parseURL addr with
    | error e => simp [hm, hu] at hp
    | ok u =>
      simp only [hm, hu] at hp
      have hreq : req = (HttpRequest.mk "POST" u [] jsonBytes).HeaderSet
          "Content-Type" "application/json" := by
        split at hp
        · simp at hp; exact hp.symm
        · split at hp <;> (simp at hp; exact hp.symm)
      subst hreq
      exact ⟨rfl, rfl, rfl, rfl⟩

/-- C9, as stated, fails in its last part: the messages with payloads "\xff" and "\xfe"
differ, and `sendWebhook` posts the same body for both, with U+FFFD in place of the
byte; so no decoder on the subscriber's side recovers both published messages. -/
theorem sendWebhook_body_not_injective :
    msgFF ≠ msgFE ∧
    (sendWebhookRun worldJSON msgFF "http://e").posted
      = some { Method := "POST", URL := "http://e",
               Header := [("Content-Type", "application/json")],
               Body := "\x7b\"event_type\":\"topic\",\"event_data\":\x7b\"id\":\"1\","
                 ++ "\"pattern\":\"topic\",\"data\":\"\\ufffd\"\x7d,\"timestamp\":\"0\"\x7d" } ∧
    (sendWebhookRun worldJSON msgFE "http://e").posted
      = (sendWebhookRun worldJSON msgFF "http://e").posted ∧
    (∀ unmarshal : String → Option (WebhookRequest GoString),
      ¬ (∀ m ∈ [msgFF, msgFE], ∀ req, (sendWebhookRun worldJSON m "http://e").posted = some req →
          (unmarshal req.Body).map (fun r => r.EventData) = some m)) := by
  have hne : msgFF ≠ msgFE := by decide
  have hFF : (sendWebhookRun worldJSON msgFF "http://e").posted
      = some { Method := "POST", URL := "http://e",
               Header := [("Content-Type", "application/json")],
               Body := "\x7b\"event_type\":\"topic\",\"event_data\":\x7b\"id\":\"1\","
                 ++ "\"pattern\":\"topic\",\"data\":\"\\ufffd\"\x7d,\"timestamp\":\"0\"\x7d" } := by
    decide
  have hFE : (sendWebhookRun worldJSON msgFE "http://e").posted
      = (sendWebhookRun worldJSON msgFF "http://e").posted := by
    decide
  refine ⟨hne, hFF, hFE, ?_⟩
  intro unmarshal h
  have h1 := h msgFF (by simp) _ hFF
  have h2 := h msgFE (by simp) _ (hFE.trans hFF)
  rw [h1] at h2
  exact hne (Option.some.inj h2)

/-- C9, amended: the envelope `sendWebhook` builds has `event_type` equal to
`msg.Pattern` and `event_data` equal to `msg` (same id, pattern and data), and the body
of the request it posts to the subscriber's address is the serialization of that
envelope. -/
theorem sendWebhook_envelope {T : Type} (w : World T) (msg : Message T) (addr : String)
    (req : HttpRequest) (hp : (sendWebhookRun w msg addr).posted = some req) :
    (wreq w.now msg).EventType = msg.Pattern ∧
    (wreq w.now msg).EventData = msg ∧
    (wreq w.now msg).EventData.ID = msg.ID ∧
    (wreq w.now msg).EventData.Pattern = msg.Pattern ∧
    (wreq w.now msg).EventData.Data = msg.Data ∧
    w.marshal (wreq w.now msg) = .ok req.Body ∧
    w.parseURL addr = .ok req.URL ∧
    req.Method = "POST" ∧
    req.Header = [("Content-Type", "application/json")] := by
  obtain ⟨h1, h2, h3, h4⟩ := sendWebhookRun_posted w msg addr req hp
  exact ⟨rfl, rfl, rfl, rfl, rfl, h1, h2, h3, h4⟩

theorem sendWebhook_envelope_witness :
    (sendWebhookRun worldJSON msgA "http://e").posted
      = some { Method := "POST", URL := "http://e",
               Header := [("Content-Type", "application/json")],
               Body := "\x7b\"event_type\":\"topic\",\"event_data\":\x7b\"id\":\"1\","
                 ++ "\"pattern\":\"topic\",\"data\":\"a\"\x7d,\"timestamp\":\"0\"\x7d" } ∧
    worldJSON.marshal (wreq worldJSON.now msgA)
      = .ok ("\x7b\"event_type\":\"topic\",\"event_data\":\x7b\"id\":\"1\","
          ++ "\"pattern\":\"topic\",\"data\":\"a\"\x7d,\"timestamp\":\"0\"\x7d") :=
  ⟨by decide,
    (sendWebhook_envelope worldJSON msgA "http://e"
      { Method := "POST", URL := "http://e",
        Header := [("Content-Type", "application/json")],
        Body := "\x7b\"event_type\":\"topic\",\"event_data\":\x7b\"id\":\"1\","
          ++ "\"pattern\":\"topic\",\"data\":\"a\"\x7d,\"timestamp\":\"0\"\x7d" }
      (by decide)).2.2.2.2.2.1⟩

/-! ## Interleavings -/

/-- A `Publish` goroutine that runs alone does what `Publish` does. -/
theorem Conc_publish_alone {T : Type} (vq : Broker T) (msg : Message T) :
    (Conc.run { Topics := vq.Topics, threads := [(Op.publish msg, Pc.start)], drained := [] }
        [0, 0]).Topics
      = (Publish vq msg).Topics := by
  cases h : vq.Topics.Load msg.Pattern <;>
    simp [Conc.run, Conc.step, Publish, h]

/-- A `Swirl` callback that runs alone on one key does what `swirlCallback` does. -/
theorem Conc_drain_alone {T : Type} (worlds : Nat → World T) (st : SwirlState T)
    (entry : String × List Subscription) :
    (Conc.run { Topics := st.Topics, threads := [(Op.drain entry.1, Pc.start)], drained := [] }
        [0, 0]).Topics
      = (swirlCallback worlds st entry).Topics := by
  cases h : st.Topics.Load entry.1 <;>
    simp [Conc.run, Conc.step, swirlCallback, h]

/-- A `Publish` that loads before the `Load` of `Swirl` and stores after its clearing
`Store` puts the drained message back: `msg1` is in a drained batch and pending again,
so the next `Swirl` delivers it a second time. -/
theorem Publish_race_redelivers :
    (raceDrainPublish.run [1, 0, 0, 1]).allFinished = true ∧
    (raceDrainPublish.run [1, 0, 0, 1]).Topics.Load "topic" = some [msg1, msg2] ∧
    (raceDrainPublish.run [1, 0, 0, 1]).drained = [[msg1]] ∧
    (raceDrainPublish.run [1, 0, 0, 1]).accountedFor msg1 = 2 := by
  decide

/-- C10 fails on the code: with two `Publish` goroutines interleaved between `Load`
and `Store`, the first message is overwritten; with a `Publish` between the `Load` and
the clearing `Store` of `Swirl`, the published message is cleared undelivered.  In both
runs all goroutines return and the lost message is in no drained batch and not in the
pending queue. -/
theorem Publish_lost_under_interleaving :
    (racePublishPublish.run [0, 1, 0, 1]).allFinished = true ∧
    (racePublishPublish.run [0, 1, 0, 1]).Topics.Load "topic" = some [msg2] ∧
    (racePublishPublish.run [0, 1, 0, 1]).drained = [] ∧
    (racePublishPublish.run [0, 1, 0, 1]).accountedFor msg1 = 0 ∧
    (raceDrainPublish.run [0, 1, 1, 0]).allFinished = true ∧
    (raceDrainPublish.run [0, 1, 1, 0]).Topics.Load "topic" = some [] ∧
    (raceDrainPublish.run [0, 1, 1, 0]).drained = [[msg1]] ∧
    (raceDrainPublish.run [0, 1, 1, 0]).accountedFor msg2 = 0 := by
  decide

/-! ## Configuration -/

theorem len_eq_zero_iff (s : String) : len s = 0 ↔ s = "" := by
  obtain ⟨cs⟩ := s
  cases cs with
  | nil => exact ⟨fun _ => rfl, fun _ => rfl⟩
  | cons c rest =>
    constructor
    · intro h
      have hpos := Char.utf8Size_pos c
      simp only [len, String.utf8ByteSize, String.utf8ByteSize.go] at h
      omega
    · intro h
      exact absurd (congrArg String.data h) (by simp)

theorem fromEnvOrDefault_eq (env : Environ) (key dflt : String) :
    (if len (Getenv env key) = 0 then dflt else Getenv env key)
      = fromEnvOrDefault env key dflt := by
  unfold Getenv fromEnvOrDefault
  cases h : env key with
  | none => simp [len_eq_zero_iff]
  | some value => simp [len_eq_zero_iff]

theorem ServerAppConfig_eq (a b : ServerAppConfig) (h1 : a.Host = b.Host)
    (h2 : a.Port = b.Port) (h3 : a.LogLevel = b.LogLevel) (h4 : a.Project = b.Project)
    (h5 : a.Release = b.Release) (h6 : a.BuildTime = b.BuildTime) (h7 : a.Commit = b.Commit) :
    a = b := by
  cases a; cases b; simp_all

theorem LoadFromEnv_eq_configInWords (env : Environ) (version : Version)
    (cfg : ServerAppConfig) : LoadFromEnv env version cfg = configInWords env version := by
  apply ServerAppConfig_eq
  · simp only [LoadFromEnv, apply_ite ServerAppConfig.Host, ite_self, configInWords]
    exact fromEnvOrDefault_eq env _ _
  · simp only [LoadFromEnv, apply_ite ServerAppConfig.Port, ite_self, configInWords]
    exact fromEnvOrDefault_eq env _ _
  · simp only [LoadFromEnv, apply_ite ServerAppConfig.LogLevel, ite_self, configInWords]
    exact fromEnvOrDefault_eq env _ _
  · simp only [LoadFromEnv, apply_ite ServerAppConfig.Project, ite_self, configInWords]
    exact fromEnvOrDefault_eq env _ _
  · simp only [LoadFromEnv, apply_ite ServerAppConfig.Release, ite_self, configInWords]
    exact fromEnvOrDefault_eq env _ _
  · simp only [LoadFromEnv, apply_ite ServerAppConfig.BuildTime, ite_self, configInWords]
    exact fromEnvOrDefault_eq env _ _
  · simp only [LoadFromEnv, apply_ite ServerAppConfig.Commit, ite_self, configInWords]
    exact fromEnvOrDefault_eq env _ _

theorem fromEnvOrDefault_unsetEmpty (env : Environ) (key dflt : String) :
    fromEnvOrDefault (unsetEmpty env) key dflt = fromEnvOrDefault env key dflt := by
  unfold fromEnvOrDefault unsetEmpty
  cases h : env key with
  | none => simp
  | some value =>
    by_cases hv : value = ""
    · simp [hv]
    · simp [hv]

/-- C13: `LoadFromEnv` sets every field to the value of its environment variable when
that value is not empty and to the default otherwise (`0.0.0.0`, `8085`, `local`, and
the variables of the version package); a variable set to the empty string counts as
unset; and `GetCombinedAddress` returns the host, a colon, and the port. -/
theorem LoadFromEnv_spec (env : Environ) (version : Version) (cfg : ServerAppConfig) :
    LoadFromEnv env version cfg = configInWords env version ∧
    LoadFromEnv (unsetEmpty env) version cfg = LoadFromEnv env version cfg ∧
    GetCombinedAddress (LoadFromEnv env version cfg)
      = (LoadFromEnv env version cfg).Host ++ ":" ++ (LoadFromEnv env version cfg).Port ∧
    GetCombinedAddress (LoadFromEnv env version cfg)
      = fromEnvOrDefault env "SERVER_SERVICE_HOST" "0.0.0.0" ++ ":"
        ++ fromEnvOrDefault env "SERVER_SERVICE_PORT" "8085" ∧
    LoadFromEnv (fun _ => none) versionVars cfg
      = { Host := "0.0.0.0", Port := "8085", LogLevel := "local", Project := "vortexq",
          Release := "unset", BuildTime := "unset", Commit := "unset" } ∧
    LoadFromEnv envOverrides versionVars cfg
      = { Host := "1.2.3.4", Port := "8085", LogLevel := "debug", Project := "vortexq",
          Release := "unset", BuildTime := "unset", Commit := "unset" } ∧
    GetCombinedAddress { cfg with Host := "127.0.0.1", Port := "9090" } = "127.0.0.1:9090" := by
  refine ⟨LoadFromEnv_eq_configInWords env version cfg, ?_, rfl, ?_, ?_, ?_, ?_⟩
  · rw [LoadFromEnv_eq_configInWords, LoadFromEnv_eq_configInWords]
    simp only [configInWords, fromEnvOrDefault_unsetEmpty]
  · rw [LoadFromEnv_eq_configInWords]
    rfl
  · rw [LoadFromEnv_eq_configInWords]
    rfl
  · rw [LoadFromEnv_eq_configInWords]
    decide
  · rfl

/-! ## Subscriptions under the three operations -/

theorem Publish_Subscriptions {T : Type} (vq : Broker T) (msg : Message T) :
    (Publish vq msg).Subscriptions = vq.Subscriptions := by
  unfold Publish
  cases vq.Topics.Load msg.Pattern <;> rfl

theorem Publish_Load_ne {T : Type} (vq : Broker T) (msg : Message T) {key : String}
    (h : key ≠ msg.Pattern) : (Publish vq msg).Topics.Load key = vq.Topics.Load key := by
  unfold Publish
  cases vq.Topics.Load msg.Pattern <;> simp [Load_Store_ne _ _ h]

theorem Subscribe_Topics {T : Type} (vq : Broker T) (s : Subscription) :
    (Subscribe vq s).1.Topics = vq.Topics := by
  unfold Subscribe
  cases vq.Subscriptions.Load s.TopicName <;> rfl

theorem Subscribe_Load_self {T : Type} (vq : Broker T) (s : Subscription) :
    (Subscribe vq s).1.Subscriptions.Load s.TopicName
      = some (subscribers vq s.TopicName ++ [s]) := by
  unfold Subscribe subscribers
  cases h : vq.Subscriptions.Load s.TopicName <;> simp [Load_Store_self]

theorem Subscribe_Load_ne {T : Type} (vq : Broker T) (s : Subscription) {key : String}
    (h : key ≠ s.TopicName) :
    (Subscribe vq s).1.Subscriptions.Load key = vq.Subscriptions.Load key := by
  unfold Subscribe
  cases vq.Subscriptions.Load s.TopicName <;> simp [Load_Store_ne _ _ h]

theorem subscribers_grow {T : Type} (vq : Broker T) (call : Call T) (key : String) :
    subscribers vq key <+: subscribers (Call.apply vq call) key := by
  cases call with
  | publish msg =>
    show subscribers vq key <+: subscribers (Publish vq msg) key
    unfold subscribers
    rw [Publish_Subscriptions]
  | swirl worlds => exact List.prefix_refl _
  | subscribe s =>
    show subscribers vq key <+: subscribers (Subscribe vq s).1 key
    by_cases h : key = s.TopicName
    · subst h
      have h2 : subscribers (Subscribe vq s).1 s.TopicName
          = subscribers vq s.TopicName ++ [s] := by
        unfold subscribers
        rw [Subscribe_Load_self]
        rfl
      rw [h2]
      exact List.prefix_append _ _
    · unfold subscribers
      rw [Subscribe_Load_ne vq s h]

/-- C11: under each of `Publish`, `Subscribe` and `Swirl` the subscriber list of every
topic before the call is a prefix of the list after it; `Publish` and `Swirl` leave the
`Subscriptions` map as it is, and `Subscribe` changes the list of no other topic than
its own. -/
theorem Subscriptions_monotone {T : Type} (vq : Broker T) (call : Call T) (key : String)
    (msg : Message T) (worlds : Nat → World T) (s : Subscription) (other : String)
    (hne : other ≠ s.TopicName) :
    subscribers vq key <+: subscribers (Call.apply vq call) key ∧
    (Publish vq msg).Subscriptions = vq.Subscriptions ∧
    (Swirl worlds vq).vq.Subscriptions = vq.Subscriptions ∧
    (Subscribe vq s).1.Subscriptions.Load other = vq.Subscriptions.Load other ∧
    (Subscribe vq s).1.Subscriptions.Load s.TopicName
      = some (subscribers vq s.TopicName ++ [s]) :=
  ⟨subscribers_grow vq call key, Publish_Subscriptions vq msg, rfl,
    Subscribe_Load_ne vq s hne, Subscribe_Load_self vq s⟩

theorem Subscriptions_monotone_witness :
    subscribers brokerSubscribed "topic"
      <+: subscribers (Call.apply brokerSubscribed (Call.subscribe sub2)) "topic" ∧
    (Subscribe brokerSubscribed sub2).1.Subscriptions.Load "other"
      = brokerSubscribed.Subscriptions.Load "other" :=
  have h := Subscriptions_monotone brokerSubscribed (Call.subscribe sub2) "topic" msg1
    (fun _ => worldOK) sub2 "other" (by decide)
  ⟨h.1, h.2.2.2.1⟩

/-- C12: `Subscribe` returns `nil` for every subscription and every broker state,
also for a subscription whose fields are empty strings or whose address is no URL;
such a subscription is stored like any other. -/
theorem Subscribe_returns_nil {T : Type} (vq : Broker T) (s : Subscription) :
    (Subscribe vq s).2 = none ∧
    (Subscribe vq subEmpty).2 = none ∧
    (Subscribe vq sub2).2 = none ∧
    (Subscribe vq subEmpty).1.Subscriptions.Load ""
      = some (subscribers vq "" ++ [subEmpty]) := by
  have h : ∀ x : Subscription, (Subscribe vq x).2 = none := by
    intro x
    unfold Subscribe
    cases vq.Subscriptions.Load x.TopicName <;> rfl
  exact ⟨h s, h subEmpty, h sub2, Subscribe_Load_self vq subEmpty⟩

/-! ## PublishHandler -/

/-- C14: `PublishHandler` answers 400 and leaves the broker as it is, without calling
`Publish`, when the body does not bind; it answers 200 after exactly one `Publish` of
the decoded message when the body binds; it answers with no other status. -/
theorem PublishHandler_status {T : Type} (bind : String → Except String (Message T))
    (vq : Broker T) (body : String) :
    (match bind body with
      | .error _ =>
        (PublishHandler bind vq body).status = 400 ∧
        (PublishHandler bind vq body).vq = vq ∧
        (PublishHandler bind vq body).published = []
      | .ok message =>
        (PublishHandler bind vq body).status = 200 ∧
        (PublishHandler bind vq body).vq = Publish vq message ∧
        (PublishHandler bind vq body).published = [message]) ∧
    ((PublishHandler bind vq body).status = 400 ∨ (PublishHandler bind vq body).status = 200) ∧
    (PublishHandler bindFixture (NewVortexQ String) "bad").status = 400 ∧
    (PublishHandler bindFixture (NewVortexQ String) "ok").vq.Topics.Load "topic"
      = some [msg1] := by
  refine ⟨?_, ?_, by decide, by decide⟩
  · unfold PublishHandler
    cases bind body <;> exact ⟨rfl, rfl, rfl⟩
  · unfold PublishHandler
    cases bind body
    · exact Or.inl rfl
    · exact Or.inr rfl

/-! ## Traces: no redelivery -/

theorem Swirl_Load_cases {T : Type} (worlds : Nat → World T) (vq : Broker T) (key : String) :
    (Swirl worlds vq).vq.Topics.Load key = vq.Topics.Load key ∨
    (Swirl worlds vq).vq.Topics.Load key = some [] := by
  cases hs : vq.Subscriptions.Load key with
  | none => exact Or.inl (Swirl_Load_unsubscribed worlds vq key hs)
  | some subs =>
    rw [Swirl_Load_subscribed worlds vq key subs hs]
    cases vq.Topics.Load key with
    | none => exact Or.inl rfl
    | some msgs => exact Or.inr rfl

theorem Swirl_Load_none {T : Type} (worlds : Nat → World T) (vq : Broker T) (key : String)
    (h : vq.Topics.Load key = none) : (Swirl worlds vq).vq.Topics.Load key = none := by
  rcases Swirl_Load_cases worlds vq key with h1 | h1
  · rw [h1, h]
  · cases hs : vq.Subscriptions.Load key with
    | none => rw [Swirl_Load_unsubscribed worlds vq key hs, h]
    | some subs => rw [Swirl_Load_subscribed worlds vq key subs hs, h]; rfl

theorem mem_unitsOver {T : Type} (Topics : SyncMap (List (Message T)))
    (es : List (String × List Subscription))
    (u : String × Message T × Subscription × String) (hu : u ∈ unitsOver Topics es) :
    ∃ e ∈ es, u.1 = e.1 ∧ u.2.1 ∈ (Topics.Load e.1).getD [] ∧ u.2.2.1 ∈ e.2 := by
  unfold unitsOver at hu
  obtain ⟨l, hl, hul⟩ := List.mem_flatten.1 hu
  obtain ⟨e, he, rfl⟩ := List.mem_map.1 hl
  unfold unitsFor at hul
  obtain ⟨p, hp, rfl⟩ := List.mem_map.1 hul
  obtain ⟨a, b⟩ := p
  have hab := List.mem_product.1 hp
  exact ⟨e, he, rfl, hab.1, hab.2⟩

/-- A delivery of `Swirl` carries a message of the queue and a subscriber of the list
that the broker held under the delivery's topic. -/
theorem Swirl_delivery_mem {T : Type} (worlds : Nat → World T) (vq : Broker T)
    (d : Delivery T) (hd : d ∈ (Swirl worlds vq).deliveries) :
    d.msg ∈ queue vq d.topic ∧ d.sub ∈ subscribers vq d.topic ∧
    vq.Subscriptions.Load d.topic = some (subscribers vq d.topic) := by
  have hu : d.unit ∈ (Swirl worlds vq).deliveries.map Delivery.unit :=
    List.mem_map_of_mem Delivery.unit hd
  rw [Swirl_units] at hu
  obtain ⟨e, he, h1, h2, h3⟩ := mem_unitsOver _ _ _ hu
  have hload : vq.Subscriptions.Load e.1 = some e.2 := (mem_RangeEntries _ _ _).1 he
  have ht : d.topic = e.1 := h1
  rw [ht]
  unfold queue subscribers
  rw [hload]
  exact ⟨h2, h3, rfl⟩

theorem queue_Swirl_of_subscribed {T : Type} (worlds : Nat → World T) (vq : Broker T)
    (key : String) (subs : List Subscription) (h : vq.Subscriptions.Load key = some subs) :
    queue (Swirl worlds vq).vq key = [] := by
  unfold queue
  rw [Swirl_Load_subscribed worlds vq key subs h]
  cases vq.Topics.Load key <;> rfl

theorem Swirl_twice_deliveries {T : Type} (worlds worlds' : Nat → World T) (vq : Broker T) :
    (Swirl worlds' (Swirl worlds vq).vq).deliveries = [] := by
  rw [List.eq_nil_iff_forall_not_mem]
  intro d hd
  obtain ⟨h1, _, h3⟩ := Swirl_delivery_mem worlds' (Swirl worlds vq).vq d hd
  have h3' : vq.Subscriptions.Load d.topic = some (subscribers (Swirl worlds vq).vq d.topic) :=
    h3
  rw [queue_Swirl_of_subscribed worlds vq d.topic _ h3'] at h1
  exact absurd h1 (List.not_mem_nil _)

theorem Swirl_twice_Load {T : Type} (worlds worlds' : Nat → World T) (vq : Broker T)
    (key : String) :
    (Swirl worlds' (Swirl worlds vq).vq).vq.Topics.Load key
      = (Swirl worlds vq).vq.Topics.Load key := by
  cases hs : vq.Subscriptions.Load key with
  | none => exact Swirl_Load_unsubscribed worlds' (Swirl worlds vq).vq key hs
  | some subs =>
    rw [Swirl_Load_subscribed worlds' (Swirl worlds vq).vq key subs hs,
      Swirl_Load_subscribed worlds vq key subs hs]
    cases vq.Topics.Load key <;> rfl

theorem queue_Publish {T : Type} (vq : Broker T) (msg : Message T) (key : String) :
    queue (Publish vq msg) key
      = queue vq key ++ (if msg.Pattern = key then [msg] else []) := by
  unfold queue
  by_cases h : msg.Pattern = key
  · subst h
    rw [Publish_Load]
    simp
  · rw [Publish_Load_ne vq msg (fun h' => h h'.symm)]
    simp [h]

theorem drainedBatch_append_queue {T : Type} (worlds : Nat → World T) (vq : Broker T)
    (key : String) :
    drainedBatch vq key ++ queue (Swirl worlds vq).vq key = queue vq key := by
  cases hs : vq.Subscriptions.Load key with
  | none =>
    have hq : queue (Swirl worlds vq).vq key = queue vq key := by
      unfold queue
      rw [Swirl_Load_unsubscribed worlds vq key hs]
    simp [drainedBatch, hs, hq]
  | some subs =>
    simp [drainedBatch, hs, queue_Swirl_of_subscribed worlds vq key subs hs]

theorem publishedTo_cons {T : Type} (key : String) (c : Call T) (rest : List (Call T)) :
    publishedTo key (c :: rest) = publishedTo key [c] ++ publishedTo key rest := by
  cases c with
  | publish msg =>
    by_cases h : msg.Pattern = key <;> simp [publishedTo, h]
  | subscribe s => simp [publishedTo]
  | swirl worlds => simp [publishedTo]

theorem traceStep_conserves {T : Type} (key : String) (acc : Broker T × List (Cycle T))
    (c : Call T) :
    batchesOf key (traceStep acc c).2 ++ queue (traceStep acc c).1 key
      = batchesOf key acc.2 ++ queue acc.1 key ++ publishedTo key [c] := by
  cases c with
  | publish msg =>
    by_cases h : msg.Pattern = key <;>
      simp [traceStep, publishedTo, queue_Publish, h]
  | subscribe s =>
    have hq : queue (Subscribe acc.1 s).1 key = queue acc.1 key := by
      unfold queue
      rw [Subscribe_Topics]
    simp [traceStep, publishedTo, hq]
  | swirl worlds =>
    simp [traceStep, publishedTo, batchesOf, drainedBatch_append_queue]

theorem foldl_traceStep_conserves {T : Type} (key : String) (calls : List (Call T)) :
    ∀ acc : Broker T × List (Cycle T),
      batchesOf key (calls.foldl traceStep acc).2 ++ queue (calls.foldl traceStep acc).1 key
        = batchesOf key acc.2 ++ queue acc.1 key ++ publishedTo key calls := by
  induction calls with
  | nil => intro acc; simp [publishedTo]
  | cons c rest ih =>
    intro acc
    rw [List.foldl_cons, ih, traceStep_conserves, publishedTo_cons key c rest]
    simp

theorem foldl_traceStep_cycles {T : Type} (calls : List (Call T)) :
    ∀ acc : Broker T × List (Cycle T),
      (∀ cyc ∈ acc.2, ∃ worlds, cyc.deliveries = (Swirl worlds cyc.before).deliveries) →
      ∀ cyc ∈ (calls.foldl traceStep acc).2,
        ∃ worlds, cyc.deliveries = (Swirl worlds cyc.before).deliveries := by
  induction calls with
  | nil => intro acc h; exact h
  | cons c rest ih =>
    intro acc h
    rw [List.foldl_cons]
    apply ih
    cases c with
    | publish msg => exact h
    | subscribe s => exact h
    | swirl worlds =>
      intro cyc hc
      rcases List.mem_append.1 hc with hc | hc
      · exact h cyc hc
      · rw [List.mem_singleton] at hc
        subst hc
        exact ⟨worlds, rfl⟩

theorem unitsFor_drainedBatch {T : Type} (vq : Broker T) (key : String) :
    unitsFor key (queue vq key) (subscribers vq key)
      = unitsFor key (drainedBatch vq key) (subscribers vq key) := by
  unfold drainedBatch subscribers
  cases vq.Subscriptions.Load key with
  | none => simp [unitsFor, List.product]
  | some subs => rfl

/-- C15: a `Swirl` run right after a `Swirl` starts no delivery and leaves every
`Topics` entry and the `Subscriptions` map as they are; and in every trace of
`Publish`, `Subscribe` and `Swirl` the batches drained for a topic, cycle after cycle,
followed by what is still pending, are the messages pending at the start followed by
the published ones, each once; in each cycle the deliveries for the topic are its
drained batch crossed with the subscribers present at that cycle. -/
theorem Swirl_no_redelivery {T : Type} [DecidableEq T] (worlds worlds' : Nat → World T)
    (vq : Broker T) (calls : List (Call T)) (key : String) :
    (Swirl worlds' (Swirl worlds vq).vq).deliveries = [] ∧
    (∀ k, (Swirl worlds' (Swirl worlds vq).vq).vq.Topics.Load k
      = (Swirl worlds vq).vq.Topics.Load k) ∧
    (Swirl worlds' (Swirl worlds vq).vq).vq.Subscriptions
      = (Swirl worlds vq).vq.Subscriptions ∧
    batchesOf key (runTrace calls vq).2 ++ queue (runTrace calls vq).1 key
      = queue vq key ++ publishedTo key calls ∧
    (∀ m, (batchesOf key (runTrace calls vq).2).count m
      ≤ (queue vq key).count m + (publishedTo key calls).count m) ∧
    (∀ cyc ∈ (runTrace calls vq).2,
      (cyc.deliveries.map Delivery.unit).filter (fun u => u.1 = key)
        = unitsFor key (drainedBatch cyc.before key) (subscribers cyc.before key)) := by
  have hcons : batchesOf key (runTrace calls vq).2 ++ queue (runTrace calls vq).1 key
      = queue vq key ++ publishedTo key calls := by
    have h := foldl_traceStep_conserves key calls (vq, [])
    simpa [runTrace, batchesOf] using h
  refine ⟨Swirl_twice_deliveries worlds worlds' vq, Swirl_twice_Load worlds worlds' vq, rfl,
    hcons, ?_, ?_⟩
  · intro m
    have h := congrArg (List.count m) hcons
    rw [List.count_append, List.count_append] at h
    omega
  · intro cyc hc
    obtain ⟨w, hw⟩ := foldl_traceStep_cycles calls (vq, [])
      (fun c h => absurd h (List.not_mem_nil _)) cyc hc
    rw [hw, Swirl_units_of_topic]
    exact unitsFor_drainedBatch cyc.before key

/-! ## Invariants of the states reached from `NewVortexQ` -/

theorem NewVortexQ_Load {T : Type} (key : String) :
    (NewVortexQ T).Topics.Load key = none ∧ (NewVortexQ T).Subscriptions.Load key = none := by
  constructor <;> simp [NewVortexQ, SyncMap.Load]

theorem TopicsKeyed_apply {T : Type} (vq : Broker T) (call : Call T) (h : TopicsKeyed vq) :
    TopicsKeyed (Call.apply vq call) := by
  intro key msgs hl m hm
  cases call with
  | publish msg =>
    have hl' : (Publish vq msg).Topics.Load key = some msgs := hl
    by_cases hk : key = msg.Pattern
    · subst hk
      rw [Publish_Load] at hl'
      have hmsgs : msgs = (vq.Topics.Load msg.Pattern).getD [] ++ [msg] :=
        (Option.some.inj hl').symm
      rw [hmsgs] at hm
      rcases List.mem_append.1 hm with hm | hm
      · cases hold : vq.Topics.Load msg.Pattern with
        | none => rw [hold] at hm; exact absurd hm (List.not_mem_nil _)
        | some old => rw [hold] at hm; exact h _ old hold m hm
      · rw [List.mem_singleton] at hm
        rw [hm]
    · rw [Publish_Load_ne vq msg hk] at hl'
      exact h key msgs hl' m hm
  | subscribe s =>
    have hl' : (Subscribe vq s).1.Topics.Load key = some msgs := hl
    rw [Subscribe_Topics] at hl'
    exact h key msgs hl' m hm
  | swirl worlds =>
    have hl' : (Swirl worlds vq).vq.Topics.Load key = some msgs := hl
    rcases Swirl_Load_cases worlds vq key with h1 | h1
    · rw [h1] at hl'
      exact h key msgs hl' m hm
    · rw [h1] at hl'
      rw [← Option.some.inj hl'] at hm
      exact absurd hm (List.not_mem_nil _)

theorem Subscriptions_Load_apply {T : Type} (vq : Broker T) (call : Call T) (key : String)
    (subs : List Subscription) (hl : (Call.apply vq call).Subscriptions.Load key = some subs) :
    vq.Subscriptions.Load key = some subs ∨
    ∃ s : Subscription, s.TopicName = key ∧ subs = subscribers vq key ++ [s] := by
  cases call with
  | publish msg =>
    have hl' : (Publish vq msg).Subscriptions.Load key = some subs := hl
    rw [Publish_Subscriptions] at hl'
    exact Or.inl hl'
  | swirl worlds => exact Or.inl hl
  | subscribe s =>
    have hl' : (Subscribe vq s).1.Subscriptions.Load key = some subs := hl
    by_cases hk : key = s.TopicName
    · subst hk
      rw [Subscribe_Load_self] at hl'
      exact Or.inr ⟨s, rfl, (Option.some.inj hl').symm⟩
    · rw [Subscribe_Load_ne vq s hk] at hl'
      exact Or.inl hl'

theorem SubscriptionsKeyed_apply {T : Type} (vq : Broker T) (call : Call T)
    (h : SubscriptionsKeyed vq) : SubscriptionsKeyed (Call.apply vq call) := by
  intro key subs hl x hx
  rcases Subscriptions_Load_apply vq call key subs hl with h1 | ⟨s, hs, h1⟩
  · exact h key subs h1 x hx
  · rw [h1] at hx
    rcases List.mem_append.1 hx with hx | hx
    · unfold subscribers at hx
      cases hold : vq.Subscriptions.Load key with
      | none => rw [hold] at hx; exact absurd hx (List.not_mem_nil _)
      | some old => rw [hold] at hx; exact h key old hold x hx
    · rw [List.mem_singleton] at hx
      rw [hx, hs]

theorem SubscriptionsNonEmpty_apply {T : Type} (vq : Broker T) (call : Call T)
    (h : SubscriptionsNonEmpty vq) : SubscriptionsNonEmpty (Call.apply vq call) := by
  intro key subs hl
  rcases Subscriptions_Load_apply vq call key subs hl with h1 | ⟨s, _, h1⟩
  · exact h key subs h1
  · rw [h1]
    simp

theorem applyCalls_invariants {T : Type} (calls : List (Call T)) :
    ∀ vq : Broker T, TopicsKeyed vq ∧ SubscriptionsKeyed vq ∧ SubscriptionsNonEmpty vq →
      TopicsKeyed (applyCalls calls vq) ∧ SubscriptionsKeyed (applyCalls calls vq) ∧
        SubscriptionsNonEmpty (applyCalls calls vq) := by
  induction calls with
  | nil => intro vq h; exact h
  | cons c rest ih =>
    intro vq h
    exact ih (Call.apply vq c)
      ⟨TopicsKeyed_apply vq c h.1, SubscriptionsKeyed_apply vq c h.2.1,
        SubscriptionsNonEmpty_apply vq c h.2.2⟩

theorem reachable_invariants {T : Type} (calls : List (Call T)) :
    TopicsKeyed (applyCalls calls (NewVortexQ T)) ∧
    SubscriptionsKeyed (applyCalls calls (NewVortexQ T)) ∧
    SubscriptionsNonEmpty (applyCalls calls (NewVortexQ T)) := by
  apply applyCalls_invariants
  refine ⟨?_, ?_, ?_⟩
  · intro key msgs hl
    rw [(NewVortexQ_Load key).1] at hl
    exact absurd hl (by simp)
  · intro key subs hl
    rw [(NewVortexQ_Load key).2] at hl
    exact absurd hl (by simp)
  · intro key subs hl
    rw [(NewVortexQ_Load key).2] at hl
    exact absurd hl (by simp)

/-- C16: in every state reached from `NewVortexQ` by `Publish`, `Subscribe` and `Swirl`,
every message stored under a key has that key as its `Pattern` (and every subscription
stored under a key has it as its `TopicName`); so every delivery `Swirl` makes to a
subscription is a call of `sendWebhook`, to the address of the subscription, with a
message whose `Pattern` is the `TopicName` of the subscription, and the body that call
posts is the serialization of an envelope whose `event_type` is that `TopicName`. -/
theorem reachable_pattern_is_key {T : Type} (calls : List (Call T))
    (worlds : Nat → World T) (now : Nat) :
    (∀ key msgs, (applyCalls calls (NewVortexQ T)).Topics.Load key = some msgs →
      ∀ m ∈ msgs, m.Pattern = key) ∧
    (∀ key subs, (applyCalls calls (NewVortexQ T)).Subscriptions.Load key = some subs →
      ∀ s ∈ subs, s.TopicName = key) ∧
    (∀ d ∈ (Swirl worlds (applyCalls calls (NewVortexQ T))).deliveries,
      d.msg.Pattern = d.sub.TopicName ∧ (wreq now d.msg).EventType = d.sub.TopicName ∧
      d.msg.Pattern = d.topic) ∧
    (∀ i d, (Swirl worlds (applyCalls calls (NewVortexQ T))).deliveries[i]? = some d →
      d.err = sendWebhook (worlds i) d.msg d.sub.SubscriberAddress ∧
      d.msg.Pattern = d.sub.TopicName ∧
      (∀ req, (sendWebhookRun (worlds i) d.msg d.sub.SubscriberAddress).posted = some req →
        (worlds i).marshal (wreq (worlds i).now d.msg) = .ok req.Body ∧
        (wreq (worlds i).now d.msg).EventType = d.sub.TopicName ∧
        (wreq (worlds i).now d.msg).EventData.Pattern = d.sub.TopicName)) := by
  obtain ⟨h1, h2, _⟩ := reachable_invariants (T := T) calls
  have hdel : ∀ d ∈ (Swirl worlds (applyCalls calls (NewVortexQ T))).deliveries,
      d.msg.Pattern = d.sub.TopicName ∧ (wreq now d.msg).EventType = d.sub.TopicName ∧
      d.msg.Pattern = d.topic := ?_
  · refine ⟨h1, h2, hdel, ?_⟩
    intro i d hd
    obtain ⟨hc1, hc2⟩ := Swirl_CallsMade worlds _ i d hd
    have hpat := (hdel d (List.getElem?_mem hd)).1
    refine ⟨hc2 ▸ hc1, hpat, ?_⟩
    intro req hp
    exact ⟨(sendWebhookRun_posted _ _ _ req hp).1, hpat, hpat⟩
  intro d hd
  obtain ⟨hm, hs, hl⟩ := Swirl_delivery_mem worlds _ d hd
  have hsub : d.sub.TopicName = d.topic := h2 d.topic _ hl d.sub hs
  have hmsg : d.msg.Pattern = d.topic := by
    unfold queue at hm
    cases hq : (applyCalls calls (NewVortexQ T)).Topics.Load d.topic with
    | none => rw [hq] at hm; exact absurd hm (List.not_mem_nil _)
    | some msgs => rw [hq] at hm; exact h1 d.topic msgs hq d.msg hm
  exact ⟨hmsg.trans hsub.symm, hmsg.trans hsub.symm, hmsg⟩

/-- C17: in every state reached from `NewVortexQ` (no topics, no subscriptions) by
`Publish`, `Subscribe` and `Swirl`, every key of `Subscriptions` holds a non-empty
list, so a `Swirl` from such a state changes the queue only of topics with at least one
subscription; and `Swirl` adds no key to `Topics`: a topic without an entry, such as a
subscribed topic never published to, has none after `Swirl`. -/
theorem reachable_subscribers_nonempty {T : Type} (calls : List (Call T))
    (worlds : Nat → World T) (vq : Broker T) (s : Subscription) (key : String) :
    (NewVortexQ T).Topics.Load key = none ∧
    (NewVortexQ T).Subscriptions.Load key = none ∧
    (∀ k subs, (applyCalls calls (NewVortexQ T)).Subscriptions.Load k = some subs →
      subs ≠ []) ∧
    ((Swirl worlds (applyCalls calls (NewVortexQ T))).vq.Topics.Load key
        ≠ (applyCalls calls (NewVortexQ T)).Topics.Load key →
      1 ≤ (subscribers (applyCalls calls (NewVortexQ T)) key).length) ∧
    (vq.Topics.Load key = none → (Swirl worlds vq).vq.Topics.Load key = none) ∧
    (Swirl worlds (Subscribe (NewVortexQ T) s).1).vq.Topics.Load s.TopicName = none := by
  obtain ⟨_, _, h3⟩ := reachable_invariants (T := T) calls
  refine ⟨(NewVortexQ_Load key).1, (NewVortexQ_Load key).2, h3, ?_,
    Swirl_Load_none worlds vq key, ?_⟩
  · intro hne
    cases hs : (applyCalls calls (NewVortexQ T)).Subscriptions.Load key with
    | none => exact absurd (Swirl_Load_unsubscribed worlds _ key hs) hne
    | some subs =>
      have hnil := h3 key subs hs
      unfold subscribers
      rw [hs]
      cases subs with
      | nil => exact absurd rfl hnil
      | cons x rest => simp
  · apply Swirl_Load_none
    rw [Subscribe_Topics]
    exact (NewVortexQ_Load s.TopicName).1

/-! ## Topics without subscriptions -/

theorem SwirlCycles_TopicsKeyed {T : Type} (worlds : Nat → Nat → World T) (vq : Broker T)
    (h : TopicsKeyed vq) : ∀ n, TopicsKeyed (SwirlCycles worlds n vq).1 := by
  intro n
  induction n with
  | zero => exact h
  | succ n ih => exact TopicsKeyed_apply (SwirlCycles worlds n vq).1 (Call.swirl (worlds n)) ih

theorem SwirlCycles_Pattern {T : Type} (worlds : Nat → Nat → World T) (vq : Broker T)
    (h : TopicsKeyed vq) : ∀ n, ∀ d ∈ (SwirlCycles worlds n vq).2, d.msg.Pattern = d.topic := by
  intro n
  induction n with
  | zero => intro d hd; simp [SwirlCycles] at hd
  | succ n ih =>
    intro d hd
    rcases List.mem_append.1 hd with hd | hd
    · exact ih d hd
    · obtain ⟨hm, _, _⟩ := Swirl_delivery_mem (worlds n) (SwirlCycles worlds n vq).1 d hd
      unfold queue at hm
      cases hq : (SwirlCycles worlds n vq).1.Topics.Load d.topic with
      | none => rw [hq] at hm; exact absurd hm (List.not_mem_nil _)
      | some msgs =>
        rw [hq] at hm
        exact SwirlCycles_TopicsKeyed worlds vq h n d.topic msgs hq d.msg hm

/-- C4: in every broker state reached from `NewVortexQ` by `Publish`, `Subscribe` and
`Swirl`, for a topic with 0 subscriptions any number of consecutive `Swirl` cycles
leaves the topic's pending queue, and its `Topics` entry, unchanged and starts no
delivery under that topic nor for any message of that topic. -/
theorem Swirl_keeps_zero_subscriptions {T : Type} (calls : List (Call T))
    (worlds : Nat → Nat → World T) (topic : String) (n : Nat)
    (h0 : subscribers (applyCalls calls (NewVortexQ T)) topic = []) :
    (SwirlCycles worlds n (applyCalls calls (NewVortexQ T))).1.Topics.Load topic
      = (applyCalls calls (NewVortexQ T)).Topics.Load topic ∧
    queue (SwirlCycles worlds n (applyCalls calls (NewVortexQ T))).1 topic
      = queue (applyCalls calls (NewVortexQ T)) topic ∧
    (∀ d ∈ (SwirlCycles worlds n (applyCalls calls (NewVortexQ T))).2,
      d.topic ≠ topic ∧ d.msg.Pattern ≠ topic) := by
  obtain ⟨hk, _, hne⟩ := reachable_invariants (T := T) calls
  have hnone : (applyCalls calls (NewVortexQ T)).Subscriptions.Load topic = none := by
    cases hs : (applyCalls calls (NewVortexQ T)).Subscriptions.Load topic with
    | none => rfl
    | some subs =>
      have h := hne topic subs hs
      unfold subscribers at h0
      rw [hs] at h0
      exact absurd h0 h
  obtain ⟨hd, hl⟩ := Swirl_keeps_unsubscribed worlds (applyCalls calls (NewVortexQ T)) topic h0 n
  have hload := hl hnone
  refine ⟨hload, ?_, ?_⟩
  · unfold queue
    rw [hload]
  · intro d hmem
    have ht := hd d hmem
    refine ⟨ht, ?_⟩
    rw [SwirlCycles_Pattern worlds _ hk n d hmem]
    exact ht

theorem Swirl_keeps_zero_subscriptions_witness :
    subscribers (applyCalls [Call.publish msg1] (NewVortexQ String)) "topic" = [] ∧
    queue (SwirlCycles (fun _ _ => worldOK) 3
        (applyCalls [Call.publish msg1] (NewVortexQ String))).1 "topic"
      = queue (applyCalls [Call.publish msg1] (NewVortexQ String)) "topic" ∧
    queue (applyCalls [Call.publish msg1] (NewVortexQ String)) "topic" = [msg1] :=
  ⟨by decide,
    (Swirl_keeps_zero_subscriptions [Call.publish msg1] (fun _ _ => worldOK) "topic" 3
      (by decide)).2.1,
    by decide⟩

end VortexQ
